import Mathlib

open scoped List

/-!
Shallow embedding of the batch orchestration and recovery engine of
`scripts/paraphrase_docx.py`.  Python floats are modelled by exact rationals,
Python strings by `String` (or `List Char` where character-level scanning is
needed), and the loosely-typed JSON health snapshot by the inductive `JValue`.
-/

namespace Paraphrase

/-- A JSON-like dynamic value, modelling the loosely-typed health snapshot
objects the Python code manipulates.  `jobj` holds its fields as an
association list (Python dict keys are unique, so a well-formed object never
repeats a key; `List.lookup` returns the first binding as Python would). -/
inductive JValue where
  | jnull
  | jbool (b : Bool)
  | jnum (q : ℚ)
  | jstr (s : String)
  | jobj (fields : List (String × JValue))

/-- The numeric reading of a dynamic value, i.e. Python's
`isinstance(value, (int, float))` followed by `float(value)`.  A Python
`bool` is a subtype of `int`, so `True`/`False` read as `1`/`0`. -/
def jNum? : JValue → Option ℚ
  | .jnum q => some q
  | .jbool b => some (if b then 1 else 0)
  | _ => none

/-- Python's `str(...)` as far as the code observes it: the code only ever
compares the (lowercased) result against the bare keywords `""`, `"ready"`,
`"ok"`, `"degraded"`, `"tripped"`, and the rendering of a non-string value
(`None`, `True`, a numeral, a braced dict) never equals any of those. -/
def jToStr : JValue → String
  | .jnull => "None"
  | .jbool true => "True"
  | .jbool false => "False"
  | .jnum q => toString q
  | .jstr s => s
  | .jobj _ => "\x7bdict\x7d"

/-- The closed set of operating modes (`MODE_*` tables of the source all have
exactly these three keys). -/
inductive Mode where
  | dual
  | standard
  | ludicrous
deriving DecidableEq

/-- The string key a mode uses in JSON dictionaries. -/
def modeKey : Mode → String
  | .dual => "dual"
  | .standard => "standard"
  | .ludicrous => "ludicrous"

def ACCOUNT_KEYS : List String := ["acc1", "acc2", "acc3"]

def MODE_DEFAULT_BUDGET : Mode → ℚ
  | .dual => 520
  | .standard => 950
  | .ludicrous => 600

def MODE_TARGET_SECONDS : Mode → ℚ
  | .dual => 18
  | .standard => 9
  | .ludicrous => 16

def MODE_MIN_WORDS_PER_ACCOUNT : Mode → ℚ
  | .dual => 280
  | .standard => 500
  | .ludicrous => 300

def MODE_COORDINATION_PENALTY_SECONDS : Mode → ℚ
  | .dual => 1.2
  | .standard => 0.7
  | .ludicrous => 1

def MODE_RATE_SUFFIX : Mode → String
  | .dual => "Dual"
  | .standard => "Standard"
  | .ludicrous => "Ludicrous"

/-- `clamp` of the source: `max(min_value, min(max_value, value))`. -/
def clamp (value min_value max_value : ℚ) : ℚ :=
  max min_value (min max_value value)

/-- The guard `isinstance(value, (int, float)) and value > 0` followed by
`return float(value)`, shared by both budget tiers of `get_raw_budget`. -/
def positiveBudget? (v : Option JValue) : Option ℚ :=
  match v.bind jNum? with
  | some q => if 0 < q then some q else none
  | none => none

/-- The `per_account` block of `get_raw_budget`: the value of
`budgets["perAccount"][account_key][mode]` when every step is a dict and the
value is a positive number, `none` otherwise. -/
def per_account_tier (budgets : List (String × JValue)) (account_key : String) (mode : Mode) :
    Option ℚ :=
  match budgets.lookup "perAccount" with
  | some (.jobj per_account) =>
    match per_account.lookup account_key with
    | some (.jobj per_account_budget) =>
      positiveBudget? (per_account_budget.lookup (modeKey mode))
    | _ => none
  | _ => none

/-- `get_raw_budget` of the source: per-account per-mode recommended budget,
else global per-mode value, else the hardcoded mode default; non-positive or
wrongly-typed values fall through to the next tier. -/
def get_raw_budget (snapshot : Option JValue) (account_key : String) (mode : Mode) : ℚ :=
  match snapshot with
  | some (.jobj sn) =>
    match sn.lookup "scheduler" with
    | some (.jobj scheduler) =>
      match scheduler.lookup "recommendedBudgets" with
      | some (.jobj budgets) =>
        match per_account_tier budgets account_key mode with
        | some v => v
        | none =>
          match positiveBudget? (budgets.lookup (modeKey mode)) with
          | some g => g
          | none => MODE_DEFAULT_BUDGET mode
      | _ => MODE_DEFAULT_BUDGET mode
    | _ => MODE_DEFAULT_BUDGET mode
  | _ => MODE_DEFAULT_BUDGET mode

/-- `str(stats.get("health", "")).lower()` of the source. -/
def healthString (stats : List (String × JValue)) : String :=
  ((stats.lookup "health").elim "" jToStr).toLower

/-- `get_reliability_factor` of the source. -/
def get_reliability_factor (snapshot : Option JValue) (account_key : String) (mode : Mode) : ℚ :=
  match snapshot with
  | some (.jobj sn) =>
    match sn.lookup "scheduler" with
    | some (.jobj scheduler) =>
      match scheduler.lookup "accounts" with
      | some (.jobj accounts) =>
        match accounts.lookup account_key with
        | some (.jobj account_stats) =>
          let suffix := MODE_RATE_SUFFIX mode
          let success := ((account_stats.lookup ("successRate" ++ suffix)).bind jNum?).getD 1
          let retry := ((account_stats.lookup ("retryRate" ++ suffix)).bind jNum?).getD 0
          let timeout := ((account_stats.lookup ("timeoutRate" ++ suffix)).bind jNum?).getD 0
          let rate_factor := clamp (success - retry * 0.45 - timeout * 0.8) 0.4 1.05
          let health := healthString account_stats
          let health_factor : ℚ :=
            if health = "degraded" then 0.8
            else if health = "tripped" then 0.35
            else 1
          clamp (rate_factor * health_factor) 0.35 1.05
        | _ => 1
      | _ => 1
    | _ => 1
  | _ => 1

/-- `get_system_penalty_seconds` of the source. -/
def get_system_penalty_seconds (snapshot : Option JValue) (account_count : ℕ) : ℚ :=
  if account_count ≤ 1 then 0
  else
    match snapshot with
    | some (.jobj sn) =>
      match sn.lookup "scheduler" with
      | some (.jobj scheduler) =>
        match scheduler.lookup "rolling" with
        | some (.jobj rolling) =>
          let success_frac := clamp (((rolling.lookup "successRatio").bind jNum?).getD 1) 0 1
          let fallback_rate := clamp (((rolling.lookup "fallbackRate").bind jNum?).getD 0) 0 1
          (fallback_rate * 4 + (1 - success_frac) * 6) * ((account_count - 1 : ℕ) : ℚ)
        | _ => 0
      | _ => 0
    | _ => 0

/-- The readiness status string of one account in the snapshot:
`str(account_data.get("status", "")).lower()` when the account's entry is a
dict, `""` otherwise. -/
def accountStatus (sn : List (String × JValue)) (key : String) : String :=
  match sn.lookup key with
  | some (.jobj account_data) => ((account_data.lookup "status").elim "" jToStr).toLower
  | _ => ""

/-- The scheduler-level health string of one account, `""` on any shape
mismatch. -/
def schedulerHealth (scheduler_accounts : List (String × JValue)) (key : String) : String :=
  match scheduler_accounts.lookup key with
  | some (.jobj stats) => healthString stats
  | _ => ""

/-- `get_available_accounts` of the source. -/
def get_available_accounts (snapshot : Option JValue) : List String :=
  match snapshot with
  | some (.jobj sn) =>
    let ready_accounts := ACCOUNT_KEYS.filter (fun key =>
      let status := accountStatus sn key
      status == "" || status == "ready" || status == "ok")
    if ready_accounts.isEmpty then [ACCOUNT_KEYS.headD ""]
    else
      match sn.lookup "scheduler" with
      | some (.jobj scheduler) =>
        match scheduler.lookup "accounts" with
        | some (.jobj scheduler_accounts) =>
          let non_tripped := ready_accounts.filter (fun key =>
            schedulerHealth scheduler_accounts key != "tripped")
          if non_tripped.isEmpty then [ready_accounts.headD ""] else non_tripped
        | _ => ready_accounts
      | _ => ready_accounts
  | _ => ACCOUNT_KEYS

/-- `effective_budget = max(120.0, raw_budget * reliability)` computed per
account inside `choose_account_plan`. -/
def effective_budget (raw_budget reliability : ℚ) : ℚ :=
  max 120 (raw_budget * reliability)

/-- The per-account profiles `(account_key, effective_budget)` of
`choose_account_plan`, sorted by budget descending (Python's stable
`list.sort(key=..., reverse=True)`). -/
def plan_profiles (mode : Mode) (snapshot : Option JValue) : List (String × ℚ) :=
  ((get_available_accounts snapshot).map (fun key =>
    (key, effective_budget (get_raw_budget snapshot key mode)
      (get_reliability_factor snapshot key mode)))).mergeSort
    (fun a b => decide (b.2 ≤ a.2))

/-- The completion-time estimate `choose_account_plan` computes for one
candidate account count. -/
def plan_estimate (total_words : ℕ) (mode : Mode) (snapshot : Option JValue)
    (profiles : List (String × ℚ)) (count : ℕ) : ℚ :=
  let selected := profiles.take count
  let capacity := max 100 ((selected.map Prod.snd).sum)
  (total_words : ℚ) / capacity * MODE_TARGET_SECONDS mode
    + ((count - 1 : ℕ) : ℚ) * MODE_COORDINATION_PENALTY_SECONDS mode
    + get_system_penalty_seconds snapshot count

/-- The running best candidate of the `choose_account_plan` loop. -/
structure PlanChoice where
  bestCount : ℕ
  bestEstimated : ℚ
  bestAccounts : List String
  bestCapacity : ℚ

/-- One iteration of the `choose_account_plan` loop for a count `≥ 2`: switch
to this candidate only if its estimate beats the current best by more than
the 0.9 second hysteresis margin. -/
def plan_step (total_words : ℕ) (mode : Mode) (snapshot : Option JValue)
    (profiles : List (String × ℚ)) (st : PlanChoice) (count : ℕ) : PlanChoice :=
  let estimated := plan_estimate total_words mode snapshot profiles count
  if estimated + 0.9 < st.bestEstimated then
    { bestCount := count
      bestEstimated := estimated
      bestAccounts := (profiles.take count).map Prod.fst
      bestCapacity := max 100 ((profiles.take count).map Prod.snd).sum }
  else st

/-- `max_count_by_words`-capped candidate-count ceiling of
`choose_account_plan`: `min(len(profiles), max(1, total_words // min_words))`. -/
def max_candidate_count (total_words : ℕ) (mode : Mode) (profiles : List (String × ℚ)) : ℕ :=
  min profiles.length (max 1 (⌊(total_words : ℚ) / MODE_MIN_WORDS_PER_ACCOUNT mode⌋.toNat))

/-- The state of the `choose_account_plan` loop after its (unconditional)
`count = 1` iteration; the Python loop runs `count = 1` first and
overwrites the float-infinity initial best without comparing, so it is the
state all later iterations start from. -/
def plan_first_choice (total_words : ℕ) (mode : Mode) (snapshot : Option JValue)
    (profiles : List (String × ℚ)) : PlanChoice :=
  { bestCount := 1
    bestEstimated := plan_estimate total_words mode snapshot profiles 1
    bestAccounts := (profiles.take 1).map Prod.fst
    bestCapacity := max 100 ((profiles.take 1).map Prod.snd).sum }

/-- `choose_account_plan` of the source.  Counts `2 .. max_candidate_count`
are folded over the post-`count = 1` state (`plan_first_choice`); with
`total_words : ℕ` the Python guard `total_words <= 0` is the `= 0` test. -/
def choose_account_plan (total_words : ℕ) (mode : Mode) (snapshot : Option JValue) :
    ℕ × ℚ × List String × ℚ :=
  if total_words = 0 then (1, 0, [ACCOUNT_KEYS.headD ""], MODE_DEFAULT_BUDGET mode)
  else
    let profiles := plan_profiles mode snapshot
    match profiles with
    | [] =>
      (1, (total_words : ℚ) / MODE_DEFAULT_BUDGET mode * MODE_TARGET_SECONDS mode,
        [ACCOUNT_KEYS.headD ""], MODE_DEFAULT_BUDGET mode)
    | _ :: _ =>
      let maxCand := max_candidate_count total_words mode profiles
      let final := (List.range' 2 (maxCand - 1)).foldl
        (plan_step total_words mode snapshot profiles)
        (plan_first_choice total_words mode snapshot profiles)
      (final.bestCount, final.bestEstimated, final.bestAccounts, final.bestCapacity)

/-- The `ParaphraseItem` dataclass: one unit of text with its origin index
and derived word count. -/
structure ParaphraseItem where
  paragraph_index : ℕ
  text : List Char
  word_count : ℕ
deriving DecidableEq

/-- Lexicographic comparison of Python's `(bucket_words, len(bucket))` key
tuples, as Python compares tuples. -/
def tupLt (a b : ℕ × ℕ) : Prop :=
  a.1 < b.1 ∨ (a.1 = b.1 ∧ a.2 < b.2)

instance : DecidablePred fun p : (ℕ × ℕ) × ℕ × ℕ => tupLt p.1 p.2 := fun _ => by
  unfold tupLt; infer_instance

instance (a b : ℕ × ℕ) : Decidable (tupLt a b) := by
  unfold tupLt; infer_instance

/-- Python's `min(accounts, key=...)`: scan left to right, keeping the first
element whose key is strictly minimal.  Python raises on an empty list; the
source never calls it on one, so the `[]` case is an arbitrary placeholder. -/
def min_by_key (key : String → ℕ × ℕ) : List String → String
  | [] => ""
  | a :: rest => rest.foldl (fun best k => if tupLt (key k) (key best) then k else best) a

/-- The word-balancing loop of `split_into_account_chunks`: assign each item
in order to the account currently holding the fewest words (ties broken by
fewest items, then by account order).  The Python dict-of-lists buckets are
modelled as functions from keys. -/
def distribute (accounts : List String) :
    List ParaphraseItem → (String → List ParaphraseItem) → (String → ℕ) →
      (String → List ParaphraseItem)
  | [], buckets, _ => buckets
  | item :: rest, buckets, bucket_words =>
    let target := min_by_key (fun key => (bucket_words key, (buckets key).length)) accounts
    distribute accounts rest
      (fun k => if k = target then buckets k ++ [item] else buckets k)
      (fun k => if k = target then bucket_words k + item.word_count else bucket_words k)

/-- The accounts list `split_into_account_chunks` actually uses: the selected
keys filtered to known accounts, or the first known account when none
remain. -/
def chunk_accounts (selected_accounts : List String) : List String :=
  let accounts0 := selected_accounts.filter (fun key => ACCOUNT_KEYS.contains key)
  if accounts0.isEmpty then [ACCOUNT_KEYS.headD ""] else accounts0

/-- `split_into_account_chunks` of the source: filter the selected keys to
known accounts (falling back to the first account), word-balance the items
over them, and emit the non-empty buckets in account order. -/
def split_into_account_chunks (items : List ParaphraseItem) (selected_accounts : List String) :
    List (String × List ParaphraseItem) :=
  let accounts := chunk_accounts selected_accounts
  let buckets := distribute accounts items (fun _ => []) (fun _ => 0)
  accounts.filterMap (fun key =>
    if (buckets key).isEmpty then none else some (key, buckets key))

/-- The `while` loop of `take_request_batch`, phrased over the remaining
items (`remaining = items[idx:]`).  Returns the batch and its word total. -/
def take_batch_loop (max_items max_words : ℕ) :
    List ParaphraseItem → List ParaphraseItem → ℕ → List ParaphraseItem × ℕ
  | [], batch, total => (batch, total)
  | next :: rest, batch, total =>
    if batch.length < max_items then
      if batch ≠ [] ∧ total + next.word_count > max_words then (batch, total)
      else take_batch_loop max_items max_words rest (batch ++ [next]) (total + next.word_count)
    else (batch, total)

/-- `take_request_batch` of the source: greedy batch from `start_index`,
with the fallback that admits a single oversized item when the loop took
nothing but items remain.  Returns `(batch, next index, word total)`. -/
def take_request_batch (items : List ParaphraseItem)
    (start_index max_items_per_request max_words_per_request : ℕ) :
    List ParaphraseItem × ℕ × ℕ :=
  let r := take_batch_loop max_items_per_request max_words_per_request
    (items.drop start_index) [] 0
  if r.1.isEmpty ∧ start_index < items.length then
    match (items.drop start_index).head? with
    | some next => ([next], start_index + 1, next.word_count)
    | none => ([], start_index, r.2)
  else (r.1, start_index + r.1.length, r.2)

/-- Python's `str.strip()` whitespace test, restricted to the ASCII
whitespace characters relevant to the embedded texts. -/
def pySpace (c : Char) : Bool :=
  c == ' ' || c == '\t' || c == '\n' || c == '\r' || c == '\x0b' || c == '\x0c'

/-- Python's `str.strip()`: drop whitespace from both ends. -/
def strip (cs : List Char) : List Char :=
  ((cs.dropWhile pySpace).reverse.dropWhile pySpace).reverse

def PARAPHRASE_DELIMITER : String := "qbpdelim123"

def delimChars : List Char := PARAPHRASE_DELIMITER.toList

/-- Case-insensitive prefix test: does `cs` start with the (lowercase)
pattern `pat`?  Models `re` matching a literal pattern under `IGNORECASE`. -/
def lowerStartsWith : List Char → List Char → Bool
  | [], _ => true
  | _ :: _, [] => false
  | d :: ds, c :: cs => c.toLower == d && lowerStartsWith ds cs

/-- `re.split(re.escape(PARAPHRASE_DELIMITER), text, flags=re.IGNORECASE)`:
cut the text at each non-overlapping, leftmost occurrence of the delimiter.
`acc` holds the characters of the current piece in reverse. -/
def splitDelimAux : List Char → List Char → List (List Char)
  | [], acc => [acc.reverse]
  | c :: rest, acc =>
    if lowerStartsWith delimChars (c :: rest) then
      acc.reverse :: splitDelimAux (List.drop (delimChars.length - 1) rest) []
    else
      splitDelimAux rest (c :: acc)
termination_by cs _ => cs.length
decreasing_by
  all_goals simp_wf
  all_goals have := List.length_drop (delimChars.length - 1) rest
  all_goals omega

/-- `re.split(r"\n\n+", part)`: cut at each maximal run of two or more
newlines (the regex is greedy, so a run is consumed whole). -/
def splitBlankAux : List Char → List Char → List (List Char)
  | [], acc => [acc.reverse]
  | '\n' :: '\n' :: rest, acc =>
    acc.reverse :: splitBlankAux (rest.dropWhile (· == '\n')) []
  | c :: rest, acc =>
    splitBlankAux rest (c :: acc)
termination_by cs _ => cs.length
decreasing_by
  all_goals simp_wf
  all_goals have := ((List.dropWhile_suffix (l := rest) (fun c => c == '\n')).sublist).length_le
  all_goals omega

/-- `"\n\n" in part`: does the text contain two consecutive newlines? -/
def hasBlankPair : List Char → Bool
  | [] => false
  | [_] => false
  | c :: d :: rest => (c == '\n' && d == '\n') || hasBlankPair (d :: rest)

/-- The secondary-split expansion of one primary segment inside
`parse_paraphrase_parts`: split on double-newline boundaries when present
(keeping the non-blank stripped pieces), otherwise keep the segment. -/
def expandPart (part : List Char) : List (List Char) :=
  if hasBlankPair part then
    ((splitBlankAux part []).map strip).filter (fun p => !p.isEmpty)
  else [part]

/-- `parse_paraphrase_parts` of the source: primary delimiter split (trimmed,
blank segments dropped); when it yields fewer segments than expected, try the
double-newline secondary split and keep it when it is exact or strictly
closer to the expected count. -/
def parse_paraphrase_parts (text : List Char) (expected_count : ℕ) : List (List Char) :=
  let parts := ((splitDelimAux text []).map strip).filter (fun p => !p.isEmpty)
  if parts.length < expected_count then
    let recovered := (parts.map expandPart).flatten
    if recovered.length = expected_count then recovered
    else if ((recovered.length : ℤ) - expected_count).natAbs
        < ((parts.length : ℤ) - expected_count).natAbs then recovered
    else parts
  else parts

/-- `recovery_account_order` of the source: the preferred key first (when it
is a known account), then every remaining known key in the fixed
`ACCOUNT_KEYS` order, each exactly once. -/
def recovery_account_order (preferred_account_key : String) : List String :=
  let ordered := if ACCOUNT_KEYS.contains preferred_account_key
    then [preferred_account_key] else []
  ACCOUNT_KEYS.foldl (fun ordered key =>
    if ordered.contains key then ordered else ordered ++ [key]) ordered

/-- The attempt loop of `request_chunk_output_with_fallback`: try each key in
turn against the remote call `attempt` (which models `post_batch_request`
followed by `extract_account_output` for that key), collecting per-account
error messages; when every key fails, raise a single fatal error aggregating
them. -/
def fallback_loop (attempt : String → Except String (List Char)) (request_label : String) :
    List String → List String → Except String (List Char)
  | [], errors =>
    .error ("Recovery failed across all accounts for " ++ request_label ++ ": "
      ++ String.intercalate " | " errors)
  | key :: rest, errors =>
    match attempt key with
    | .ok out => .ok out
    | .error e => fallback_loop attempt request_label rest (errors ++ [key ++ ": " ++ e])

/-- `request_chunk_output_with_fallback` of the source. -/
def request_chunk_output_with_fallback (attempt : String → Except String (List Char))
    (request_label : String) (preferred_account_key : String) : Except String (List Char) :=
  fallback_loop attempt request_label (recovery_account_order preferred_account_key) []

/-- What `recover_account_chunk_parts` does on a one-item chunk, inlined (a
one-item call makes exactly one remote attempt and never recurses): on a
segment-count match return the parsed part; otherwise accept the whole
trimmed output when non-empty, else fail.  The remote call sequence is
modelled by the oracle `remote`, consumed at index `k` (`none` models
`request_chunk_output_with_fallback` exhausting every account and raising). -/
def recover_one (remote : ℕ → Option (List Char)) (_item : ParaphraseItem) (_depth k : ℕ) :
    Except String (List (List Char) × ℕ) :=
  match remote k with
  | none => .error "Recovery failed across all accounts"
  | some paraphrased_text =>
    let parts := parse_paraphrase_parts paraphrased_text 1
    if parts.length = 1 then .ok (parts, k + 1)
    else
      let single := strip paraphrased_text
      if single.isEmpty then .error "Recovery failed for single paragraph"
      else .ok ([single], k + 1)

/-- The depth-limit loop of `recover_account_chunk_parts`: resolve each
remaining item by its own one-item recovery call, in order, threading the
oracle index. -/
def recover_singles (remote : ℕ → Option (List Char)) :
    List ParaphraseItem → ℕ → ℕ → Except String (List (List Char) × ℕ)
  | [], _, k => .ok ([], k)
  | item :: rest, depth, k =>
    match recover_one remote item depth k with
    | .error e => .error e
    | .ok (one, k1) =>
      match recover_singles remote rest depth k1 with
      | .error e => .error e
      | .ok (others, k2) => .ok (one ++ others, k2)

/-- `recover_account_chunk_parts` of the source.  The remote call chain
(`request_chunk_output_with_fallback`) is abstracted by the oracle `remote`,
indexed by a call counter `k` that the recursion threads; `none` models the
fallback raising after exhausting every account.  Returns the resolved
segments together with the next oracle index. -/
def recover_account_chunk_parts (remote : ℕ → Option (List Char))
    (account_items : List ParaphraseItem) (depth k : ℕ) :
    Except String (List (List Char) × ℕ) :=
  if account_items.isEmpty then .ok ([], k)
  else
    match remote k with
    | none => .error "Recovery failed across all accounts"
    | some paraphrased_text =>
      let parts := parse_paraphrase_parts paraphrased_text account_items.length
      if parts.length = account_items.length then .ok (parts, k + 1)
      else if account_items.length = 1 then
        let single := strip paraphrased_text
        if single.isEmpty then .error "Recovery failed for single paragraph"
        else .ok ([single], k + 1)
      else if depth ≥ 6 then
        recover_singles remote account_items (depth + 1) (k + 1)
      else
        let midpoint := account_items.length / 2
        if _h : midpoint ≤ 0 ∨ midpoint ≥ account_items.length then
          .error "Recovery split failed"
        else
          match recover_account_chunk_parts remote (account_items.take midpoint)
            (depth + 1) (k + 1) with
          | .error e => .error e
          | .ok (left, kl) =>
            match recover_account_chunk_parts remote (account_items.drop midpoint)
              (depth + 1) kl with
            | .error e => .error e
            | .ok (right, kr) => .ok (left ++ right, kr)
termination_by account_items.length
decreasing_by
  all_goals simp_wf
  all_goals omega

/-- Refinement comparator for the spec's wording of `reliabilityFactor`: the
raw success/retry/timeout rate field at the documented snapshot path
`scheduler.accounts.<key>.<field>`, `none` on any shape mismatch. -/
def spec_rate_field (snapshot : Option JValue) (account_key field : String) : Option ℚ :=
  match snapshot with
  | some (.jobj sn) =>
    match sn.lookup "scheduler" with
    | some (.jobj scheduler) =>
      match scheduler.lookup "accounts" with
      | some (.jobj accounts) =>
        match accounts.lookup account_key with
        | some (.jobj account_stats) => (account_stats.lookup field).bind jNum?
        | _ => none
      | _ => none
    | _ => none
  | _ => none

/-- Refinement comparator: the account's health classification string at the
documented snapshot path, `""` on any shape mismatch. -/
def spec_health_string (snapshot : Option JValue) (account_key : String) : String :=
  match snapshot with
  | some (.jobj sn) =>
    match sn.lookup "scheduler" with
    | some (.jobj scheduler) =>
      match scheduler.lookup "accounts" with
      | some (.jobj accounts) =>
        match accounts.lookup account_key with
        | some (.jobj account_stats) => healthString account_stats
        | _ => ""
      | _ => ""
    | _ => ""
  | _ => ""

/-- Refinement comparator built from the spec's words for claim C4:
`rateFactor = clamp(success − retry×0.45 − timeout×0.8, 0.4, 1.05)` with
success/retry/timeout defaulting to `1/0/0` when absent or non-numeric,
`healthFactor` 1.0 normal, 0.8 degraded, 0.35 tripped, and the result
`clamp(rateFactor × healthFactor, 0.35, 1.05)`. -/
def reliability_factor_spec (snapshot : Option JValue) (account_key : String) (mode : Mode) : ℚ :=
  let suffix := MODE_RATE_SUFFIX mode
  let success := (spec_rate_field snapshot account_key ("successRate" ++ suffix)).getD 1
  let retry := (spec_rate_field snapshot account_key ("retryRate" ++ suffix)).getD 0
  let timeout := (spec_rate_field snapshot account_key ("timeoutRate" ++ suffix)).getD 0
  let rate_factor := clamp (success - retry * 0.45 - timeout * 0.8) 0.4 1.05
  let health := spec_health_string snapshot account_key
  let health_factor : ℚ :=
    if health = "degraded" then 0.8
    else if health = "tripped" then 0.35
    else 1
  clamp (rate_factor * health_factor) 0.35 1.05

/-- Refinement comparator: the raw per-account per-mode recommended budget
below an already-located `recommendedBudgets` dict, `none` on any shape
mismatch. -/
def spec_per_account_value (budgets : List (String × JValue)) (account_key : String)
    (mode : Mode) : Option ℚ :=
  match budgets.lookup "perAccount" with
  | some (.jobj per_account) =>
    match per_account.lookup account_key with
    | some (.jobj per_account_budget) =>
      (per_account_budget.lookup (modeKey mode)).bind jNum?
    | _ => none
  | _ => none

/-- Refinement comparator: the raw global per-mode recommended budget below an
already-located `recommendedBudgets` dict. -/
def spec_global_value (budgets : List (String × JValue)) (mode : Mode) : Option ℚ :=
  (budgets.lookup (modeKey mode)).bind jNum?

/-- Refinement comparator: the per-account per-mode recommended budget at the
documented snapshot path, `none` on any shape mismatch. -/
def spec_per_account_budget (snapshot : Option JValue) (account_key : String) (mode : Mode) :
    Option ℚ :=
  match snapshot with
  | some (.jobj sn) =>
    match sn.lookup "scheduler" with
    | some (.jobj scheduler) =>
      match scheduler.lookup "recommendedBudgets" with
      | some (.jobj budgets) => spec_per_account_value budgets account_key mode
      | _ => none
    | _ => none
  | _ => none

/-- Refinement comparator: the global per-mode recommended budget at the
documented snapshot path, `none` on any shape mismatch. -/
def spec_global_budget (snapshot : Option JValue) (mode : Mode) : Option ℚ :=
  match snapshot with
  | some (.jobj sn) =>
    match sn.lookup "scheduler" with
    | some (.jobj scheduler) =>
      match scheduler.lookup "recommendedBudgets" with
      | some (.jobj budgets) => spec_global_value budgets mode
      | _ => none
    | _ => none
  | _ => none

/-- Refinement comparator built from the spec's words for claim C9's budget
tiers: per-account per-mode value, else global per-mode value, else the
hardcoded default, skipping non-positive or non-numeric values. -/
def raw_budget_spec (snapshot : Option JValue) (account_key : String) (mode : Mode) : ℚ :=
  ((Option.filter (fun q => decide (0 < q)) (spec_per_account_budget snapshot account_key mode))
    <|> (Option.filter (fun q => decide (0 < q)) (spec_global_budget snapshot mode))).getD
    (MODE_DEFAULT_BUDGET mode)

/-- Refinement comparator built from the spec's words for claim C7: when the
primary split's count does not match the expected count, take the secondary
(double-newline) split exactly when it is exact or strictly reduces the
absolute count mismatch, otherwise keep the primary split. -/
def parse_paraphrase_parts_spec (text : List Char) (expected_count : ℕ) : List (List Char) :=
  let parts := ((splitDelimAux text []).map strip).filter (fun p => !p.isEmpty)
  if parts.length = expected_count then parts
  else
    let recovered := (parts.map expandPart).flatten
    if recovered.length = expected_count ∨
        ((recovered.length : ℤ) - expected_count).natAbs
          < ((parts.length : ℤ) - expected_count).natAbs
    then recovered
    else parts

/-- Python's `isinstance(v, dict)`. -/
def isDict : JValue → Bool
  | .jobj _ => true
  | _ => false

/-- Instrumented `v.get(key)`: Python raises `AttributeError` when `v` is not
a dict; on a dict it returns the field or `None`. -/
def pyGetE (v : JValue) (key : String) : Except String (Option JValue) :=
  match v with
  | .jobj fields => .ok (fields.lookup key)
  | _ => .error "AttributeError: get on a non-dict value"

/-- Instrumented `float(v)`: Python raises `TypeError` when `v` is neither an
int, a float nor a bool (a numeric string would parse, but the source only
calls `float` behind an `isinstance(v, (int, float))` guard, so treating
every non-numeric value as raising is conservative). -/
def pyFloatE (v : JValue) : Except String ℚ :=
  match jNum? v with
  | some q => .ok q
  | none => .error "TypeError: float of a non-numeric value"

/-- The `per_account` block of `get_raw_budget` re-traced with the raising
operations explicit: yields the per-account budget when the path is intact
and the value is a positive number, `none` when the tier falls through. -/
def per_account_tierE (bv : JValue) (account_key : String) (mode : Mode) :
    Except String (Option ℚ) := do
  let per_account ← pyGetE bv "perAccount"
  match per_account with
  | some pav =>
    if isDict pav then do
      let per_account_budget ← pyGetE pav account_key
      match per_account_budget with
      | some pabv =>
        if isDict pabv then do
          let value ← pyGetE pabv (modeKey mode)
          match value with
          | some vv =>
            if (jNum? vv).any (fun q => decide (0 < q)) then do
              let q ← pyFloatE vv
              pure (some q)
            else pure none
          | none => pure none
        else pure none
      | none => pure none
    else pure none
  | none => pure none

/-- `get_raw_budget` re-traced with every Python operation that can raise
(`.get` on a non-dict, `float` of a non-number) made explicit in an exception
monad, and the source's `isinstance` guards kept as written; claim C9 is that
this never reaches an error. -/
def get_raw_budgetE (snapshot : Option JValue) (account_key : String) (mode : Mode) :
    Except String ℚ :=
  match snapshot with
  | none => .ok (MODE_DEFAULT_BUDGET mode)
  | some sv =>
    if !isDict sv then .ok (MODE_DEFAULT_BUDGET mode)
    else do
      let scheduler ← pyGetE sv "scheduler"
      match scheduler with
      | none => .ok (MODE_DEFAULT_BUDGET mode)
      | some schv =>
        if !isDict schv then .ok (MODE_DEFAULT_BUDGET mode)
        else do
          let budgets ← pyGetE schv "recommendedBudgets"
          match budgets with
          | none => .ok (MODE_DEFAULT_BUDGET mode)
          | some bv =>
            if !isDict bv then .ok (MODE_DEFAULT_BUDGET mode)
            else do
              let hit ← per_account_tierE bv account_key mode
              match hit with
              | some q => pure q
              | none => do
                let global_value ← pyGetE bv (modeKey mode)
                match global_value with
                | some gv =>
                  if (jNum? gv).any (fun q => decide (0 < q)) then pyFloatE gv
                  else pure (MODE_DEFAULT_BUDGET mode)
                | none => pure (MODE_DEFAULT_BUDGET mode)

/-- One rate-field read of `get_reliability_factor` re-traced with the
raising operations explicit: `stats.get(name)` followed by
`float(v) if isinstance(v, (int, float)) else default`. -/
def rate_fieldE (sv : JValue) (name : String) (d : ℚ) : Except String ℚ := do
  let field ← pyGetE sv name
  match field with
  | some v => if (jNum? v).isSome then pyFloatE v else pure d
  | none => pure d

/-- `get_reliability_factor` re-traced with the raising operations explicit,
as in `get_raw_budgetE`. -/
def get_reliability_factorE (snapshot : Option JValue) (account_key : String) (mode : Mode) :
    Except String ℚ :=
  match snapshot with
  | none => .ok 1
  | some sv =>
    if !isDict sv then .ok 1
    else do
      let scheduler ← pyGetE sv "scheduler"
      match scheduler with
      | none => .ok 1
      | some schv =>
        if !isDict schv then .ok 1
        else do
          let accounts ← pyGetE schv "accounts"
          match accounts with
          | none => .ok 1
          | some accv =>
            if !isDict accv then .ok 1
            else do
              let account_stats ← pyGetE accv account_key
              match account_stats with
              | none => .ok 1
              | some stv =>
                if !isDict stv then .ok 1
                else do
                  let suffix := MODE_RATE_SUFFIX mode
                  let success ← rate_fieldE stv ("successRate" ++ suffix) 1
                  let retry ← rate_fieldE stv ("retryRate" ++ suffix) 0
                  let timeout ← rate_fieldE stv ("timeoutRate" ++ suffix) 0
                  let rate_factor := clamp (success - retry * 0.45 - timeout * 0.8) 0.4 1.05
                  let health_value ← pyGetE stv "health"
                  let health := (health_value.elim "" jToStr).toLower
                  let health_factor : ℚ :=
                    if health = "degraded" then 0.8
                    else if health = "tripped" then 0.35
                    else 1
                  pure (clamp (rate_factor * health_factor) 0.35 1.05)

/-! ## Theorems -/

theorem positiveBudget?_pos {v : Option JValue} {q : ℚ} (h : positiveBudget? v = some q) :
    0 < q := by
  unfold positiveBudget? at h
  split at h
  · rename_i r hr
    split_ifs at h with h0
    injection h with h
    exact h ▸ h0
  · exact absurd h (by simp)

theorem MODE_DEFAULT_BUDGET_pos (mode : Mode) : 0 < MODE_DEFAULT_BUDGET mode := by
  cases mode <;> norm_num [ MODE_DEFAULT_BUDGET]

theorem per_account_tier_pos {budgets : List (String × JValue)} {account_key : String}
    {mode : Mode} {q : ℚ} (h : per_account_tier budgets account_key mode = some q) : 0 < q := by
  unfold per_account_tier at h
  split at h
  · split at h
    · exact positiveBudget?_pos h
    · exact absurd h (by simp)
  · exact absurd h (by simp)

theorem get_raw_budget_pos (snapshot : Option JValue) (account_key : String) (mode : Mode) :
    0 < get_raw_budget snapshot account_key mode := by
  unfold get_raw_budget
  repeat' split
  all_goals try exact MODE_DEFAULT_BUDGET_pos mode
  all_goals rename_i heq
  · exact per_account_tier_pos heq
  · exact positiveBudget?_pos heq

/-- C5: the effective budget `max(120, rawBudget * reliabilityFactor)` is
monotone in the reliability factor for any fixed raw budget the code can
produce, and is always at least 120. -/
theorem C5_effective_budget_monotone (snapshot : Option JValue) (account_key : String)
    (mode : Mode) (r1 r2 : ℚ) (h : r1 ≤ r2) :
    effective_budget (get_raw_budget snapshot account_key mode) r1
      ≤ effective_budget (get_raw_budget snapshot account_key mode) r2
    ∧ 120 ≤ effective_budget (get_raw_budget snapshot account_key mode) r1 := by
  constructor
  · exact max_le_max le_rfl
      (mul_le_mul_of_nonneg_left h (le_of_lt (get_raw_budget_pos snapshot account_key mode)))
  · exact le_max_left _ _

theorem C5_effective_budget_monotone_witness :
    (0 : ℚ) ≤ 1 ∧
    (effective_budget (get_raw_budget none "acc1" Mode.dual) 0
      ≤ effective_budget (get_raw_budget none "acc1" Mode.dual) 1
    ∧ 120 ≤ effective_budget (get_raw_budget none "acc1" Mode.dual) 0) :=
  ⟨by norm_num, C5_effective_budget_monotone none "acc1" Mode.dual 0 1 (by norm_num)⟩

theorem reliability_spec_of_defaults (s : Option JValue) (k : String) (mode : Mode)
    (h1 : ∀ f, spec_rate_field s k f = none) (h2 : spec_health_string s k = "") :
    reliability_factor_spec s k mode = 1 := by
  simp only [reliability_factor_spec, h1, h2]
  rw [if_neg (by decide), if_neg (by decide)]
  norm_num [clamp, min_def, max_def]

/-- C4: `get_reliability_factor` equals the spec's formula
`clamp(clamp(success − 0.45·retry − 0.8·timeout, 0.4, 1.05) · healthFactor,
0.35, 1.05)` with absent or non-numeric fields defaulted, and an absent
snapshot yields exactly 1. -/
theorem C4_reliability_factor_formula (snapshot : Option JValue) (account_key : String)
    (mode : Mode) :
    get_reliability_factor snapshot account_key mode
      = reliability_factor_spec snapshot account_key mode
    ∧ get_reliability_factor none account_key mode = 1 := by
  refine ⟨?_, rfl⟩
  rcases snapshot with _ | sv
  · rw [reliability_spec_of_defaults none account_key mode (fun f => rfl) rfl]
    simp [get_reliability_factor]
  · cases sv
    case jobj sn =>
      cases hsch : sn.lookup "scheduler"
      case none =>
        rw [reliability_spec_of_defaults (some (.jobj sn)) account_key mode
          (fun f => by simp [spec_rate_field, hsch]) (by simp [spec_health_string, hsch])]
        simp [get_reliability_factor, hsch]
      case some schv =>
        cases schv
        case jobj scheduler =>
          cases hacc : scheduler.lookup "accounts"
          case none =>
            rw [reliability_spec_of_defaults (some (.jobj sn)) account_key mode
              (fun f => by simp [spec_rate_field, hsch, hacc])
              (by simp [spec_health_string, hsch, hacc])]
            simp [get_reliability_factor, hsch, hacc]
          case some accv =>
            cases accv
            case jobj accounts =>
              cases hst : accounts.lookup account_key
              case none =>
                rw [reliability_spec_of_defaults (some (.jobj sn)) account_key mode
                  (fun f => by simp [spec_rate_field, hsch, hacc, hst])
                  (by simp [spec_health_string, hsch, hacc, hst])]
                simp [get_reliability_factor, hsch, hacc, hst]
              case some stv =>
                cases stv
                case jobj account_stats =>
                  simp [get_reliability_factor, reliability_factor_spec, spec_rate_field,
                    spec_health_string, hsch, hacc, hst]
                all_goals
                  rw [reliability_spec_of_defaults (some (.jobj sn)) account_key mode
                    (fun f => by simp [spec_rate_field, hsch, hacc, hst])
                    (by simp [spec_health_string, hsch, hacc, hst])]
                all_goals simp [get_reliability_factor, hsch, hacc, hst]
            all_goals
              rw [reliability_spec_of_defaults (some (.jobj sn)) account_key mode
                (fun f => by simp [spec_rate_field, hsch, hacc])
                (by simp [spec_health_string, hsch, hacc])]
            all_goals simp [get_reliability_factor, hsch, hacc]
        all_goals
          rw [reliability_spec_of_defaults (some (.jobj sn)) account_key mode
            (fun f => by simp [spec_rate_field, hsch]) (by simp [spec_health_string, hsch])]
        all_goals simp [get_reliability_factor, hsch]
    case jnull =>
      rw [reliability_spec_of_defaults (some .jnull) account_key mode (fun f => rfl) rfl]
      simp [get_reliability_factor]
    case jbool b =>
      rw [reliability_spec_of_defaults (some (.jbool b)) account_key mode (fun f => rfl) rfl]
      simp [get_reliability_factor]
    case jnum q =>
      rw [reliability_spec_of_defaults (some (.jnum q)) account_key mode (fun f => rfl) rfl]
      simp [get_reliability_factor]
    case jstr s =>
      rw [reliability_spec_of_defaults (some (.jstr s)) account_key mode (fun f => rfl) rfl]
      simp [get_reliability_factor]

theorem positiveBudget?_eq_filter (v : Option JValue) :
    positiveBudget? v = Option.filter (fun q => decide (0 < q)) (v.bind jNum?) := by
  unfold positiveBudget?
  cases hv : v.bind jNum? <;> simp [Option.filter]

theorem per_account_tierE_ok (budgets : List (String × JValue)) (account_key : String)
    (mode : Mode) :
    per_account_tierE (.jobj budgets) account_key mode
      = .ok (per_account_tier budgets account_key mode) := by
  unfold per_account_tierE per_account_tier
  simp only [pyGetE, Bind.bind, Except.bind]
  cases hpa : budgets.lookup "perAccount"
  case none => simp [Pure.pure, Except.pure]
  case some pav =>
    cases pav <;> simp [isDict, Pure.pure, Except.pure]
    case jobj pa =>
      try simp only [pyGetE, Bind.bind, Except.bind]
      cases hab : pa.lookup account_key
      case none => simp [Pure.pure, Except.pure]
      case some pabv =>
        cases pabv <;> simp [isDict, Pure.pure, Except.pure]
        case jobj pab =>
          try simp only [pyGetE, Bind.bind, Except.bind]
          cases hv : pab.lookup (modeKey mode)
          case none => simp [positiveBudget?, Pure.pure, Except.pure]
          case some vv =>
            cases hq : jNum? vv
            case none => simp [positiveBudget?, hq, Pure.pure, Except.pure]
            case some q =>
              by_cases h0 : 0 < q <;>
                simp [positiveBudget?, hq, h0, pyFloatE, Pure.pure, Except.pure,
                  Functor.map, Except.map]

theorem rate_fieldE_ok (stats : List (String × JValue)) (name : String) (d : ℚ) :
    rate_fieldE (.jobj stats) name d = .ok (((stats.lookup name).bind jNum?).getD d) := by
  unfold rate_fieldE
  simp only [pyGetE, Bind.bind, Except.bind]
  cases h : stats.lookup name
  case none => simp [Pure.pure, Except.pure]
  case some v =>
    cases hq : jNum? v <;> simp [pyFloatE, hq, Pure.pure, Except.pure]

theorem get_raw_budgetE_ok (snapshot : Option JValue) (account_key : String) (mode : Mode) :
    get_raw_budgetE snapshot account_key mode
      = .ok (get_raw_budget snapshot account_key mode) := by
  unfold get_raw_budgetE get_raw_budget
  rcases snapshot with _ | sv
  · rfl
  · cases sv <;> simp [isDict]
    case jobj sn =>
      simp only [pyGetE, Bind.bind, Except.bind]
      cases hsch : sn.lookup "scheduler"
      case none => simp
      case some schv =>
        cases schv <;> simp [isDict]
        case jobj scheduler =>
          try simp only [pyGetE, Bind.bind, Except.bind]
          cases hb : scheduler.lookup "recommendedBudgets"
          case none => simp
          case some bv =>
            cases bv <;> simp [isDict]
            case jobj budgets =>
              rw [per_account_tierE_ok]
              simp only [Bind.bind, Except.bind]
              cases hpt : per_account_tier budgets account_key mode
              case some v => simp [Pure.pure, Except.pure]
              case none =>
                simp only [pyGetE, Bind.bind, Except.bind]
                cases hg : budgets.lookup (modeKey mode)
                case none => simp [positiveBudget?, Pure.pure, Except.pure]
                case some gv =>
                  cases hq : jNum? gv
                  case none => simp [positiveBudget?, hq, Pure.pure, Except.pure]
                  case some q =>
                    by_cases h0 : 0 < q <;>
                      simp [positiveBudget?, hq, h0, pyFloatE, Pure.pure, Except.pure]

theorem get_reliability_factorE_ok (snapshot : Option JValue) (account_key : String)
    (mode : Mode) :
    get_reliability_factorE snapshot account_key mode
      = .ok (get_reliability_factor snapshot account_key mode) := by
  unfold get_reliability_factorE get_reliability_factor
  rcases snapshot with _ | sv
  · rfl
  · cases sv <;> simp [isDict]
    case jobj sn =>
      simp only [pyGetE, Bind.bind, Except.bind]
      cases hsch : sn.lookup "scheduler"
      case none => simp
      case some schv =>
        cases schv <;> simp [isDict]
        case jobj scheduler =>
          try simp only [pyGetE, Bind.bind, Except.bind]
          cases hacc : scheduler.lookup "accounts"
          case none => simp
          case some accv =>
            cases accv <;> simp [isDict]
            case jobj accounts =>
              try simp only [pyGetE, Bind.bind, Except.bind]
              cases hst : accounts.lookup account_key
              case none => simp
              case some stv =>
                cases stv <;> simp [isDict]
                case jobj account_stats =>
                  rw [rate_fieldE_ok, rate_fieldE_ok, rate_fieldE_ok]
                  simp [pyGetE, healthString, Bind.bind, Except.bind, Pure.pure, Except.pure]

theorem per_account_tier_eq_filter (budgets : List (String × JValue)) (account_key : String)
    (mode : Mode) :
    Option.filter (fun q => decide (0 < q)) (spec_per_account_value budgets account_key mode)
      = per_account_tier budgets account_key mode := by
  unfold spec_per_account_value per_account_tier
  cases hpa : budgets.lookup "perAccount"
  case none => simp [Option.filter]
  case some pav =>
    cases pav <;> simp [Option.filter]
    case jobj pa =>
      cases hab : pa.lookup account_key
      case none => simp [Option.filter]
      case some pabv =>
        cases pabv <;> simp [Option.filter]
        case jobj pab =>
          cases hq : (pab.lookup (modeKey mode)).bind jNum?
          case none => simp [Option.filter, positiveBudget?, hq]
          case some q =>
            by_cases h0 : 0 < q <;> simp [Option.filter, positiveBudget?, hq, h0]

theorem global_tier_eq_filter (budgets : List (String × JValue)) (mode : Mode) :
    Option.filter (fun q => decide (0 < q)) (spec_global_value budgets mode)
      = positiveBudget? (budgets.lookup (modeKey mode)) := by
  rw [positiveBudget?_eq_filter]
  rfl

theorem raw_budget_spec_eq (snapshot : Option JValue) (account_key : String) (mode : Mode) :
    get_raw_budget snapshot account_key mode = raw_budget_spec snapshot account_key mode := by
  unfold get_raw_budget raw_budget_spec spec_per_account_budget spec_global_budget
  rcases snapshot with _ | sv
  · simp
  · cases sv <;> simp
    case jobj sn =>
      cases hsch : sn.lookup "scheduler"
      case none => simp
      case some schv =>
        cases schv <;> simp
        case jobj scheduler =>
          cases hb : scheduler.lookup "recommendedBudgets"
          case none => simp
          case some bv =>
            cases bv <;> simp
            case jobj budgets =>
              rw [per_account_tier_eq_filter, global_tier_eq_filter]
              cases hpt : per_account_tier budgets account_key mode
              case some v => simp
              case none =>
                cases hg : positiveBudget? (budgets.lookup (modeKey mode)) <;> simp

/-- C9: for snapshots of any shape the capacity-model functions return
normally (the exception-instrumented re-tracings always produce `ok` of the
pure value), and the raw budget follows the spec's fallback tiers
(per-account per-mode, then global per-mode, then the mode default, skipping
non-positive or non-numeric values). -/
theorem C9_capacity_model_total (snapshot : Option JValue) (account_key : String) (mode : Mode) :
    get_raw_budgetE snapshot account_key mode
      = .ok (get_raw_budget snapshot account_key mode)
    ∧ get_reliability_factorE snapshot account_key mode
      = .ok (get_reliability_factor snapshot account_key mode)
    ∧ get_raw_budget snapshot account_key mode = raw_budget_spec snapshot account_key mode :=
  ⟨get_raw_budgetE_ok snapshot account_key mode,
    get_reliability_factorE_ok snapshot account_key mode,
    raw_budget_spec_eq snapshot account_key mode⟩

theorem plan_fold_le (total_words : ℕ) (mode : Mode) (snapshot : Option JValue)
    (profiles : List (String × ℚ)) (counts : List ℕ) (st : PlanChoice)
    (h1 : st.bestEstimated ≤ plan_estimate total_words mode snapshot profiles 1)
    (h2 : 1 < st.bestCount →
      st.bestEstimated + 0.9 < plan_estimate total_words mode snapshot profiles 1) :
    (counts.foldl (plan_step total_words mode snapshot profiles) st).bestEstimated
      ≤ plan_estimate total_words mode snapshot profiles 1
    ∧ (1 < (counts.foldl (plan_step total_words mode snapshot profiles) st).bestCount →
      (counts.foldl (plan_step total_words mode snapshot profiles) st).bestEstimated + 0.9
        < plan_estimate total_words mode snapshot profiles 1) := by
  induction counts generalizing st with
  | nil => exact ⟨h1, h2⟩
  | cons c rest ih =>
    simp only [List.foldl_cons]
    apply ih
    · simp only [plan_step]
      split_ifs with hif
      · dsimp only
        linarith
      · exact h1
    · simp only [plan_step]
      split_ifs with hif
      · intro _
        dsimp only
        linarith
      · exact h2

theorem plan_fold_stay (total_words : ℕ) (mode : Mode) (snapshot : Option JValue)
    (profiles : List (String × ℚ)) (counts : List ℕ) (st : PlanChoice)
    (h : ∀ c ∈ counts, ¬ (plan_estimate total_words mode snapshot profiles c + 0.9
      < st.bestEstimated)) :
    counts.foldl (plan_step total_words mode snapshot profiles) st = st := by
  induction counts with
  | nil => rfl
  | cons c rest ih =>
    simp only [List.foldl_cons]
    have hstep : plan_step total_words mode snapshot profiles st c = st := by
      simp only [plan_step]
      split_ifs with hif
      · exact absurd hif (h c (by simp))
      · rfl
    rw [hstep]
    exact ih (fun d hd => h d (by simp [hd]))

theorem get_available_accounts_ne_nil (snapshot : Option JValue) :
    get_available_accounts snapshot ≠ [] := by
  unfold get_available_accounts
  rcases snapshot with _ | sv
  · simp [ACCOUNT_KEYS]
  · cases sv
    case jobj sn =>
      dsimp only
      repeat' split
      all_goals simp_all [List.isEmpty_iff, ACCOUNT_KEYS]
    all_goals simp [ACCOUNT_KEYS]

theorem plan_profiles_ne_nil (mode : Mode) (snapshot : Option JValue) :
    plan_profiles mode snapshot ≠ [] := by
  unfold plan_profiles
  intro hc
  have hlen := congrArg List.length hc
  rw [List.length_mergeSort, List.length_map] at hlen
  exact get_available_accounts_ne_nil snapshot (List.eq_nil_of_length_eq_zero hlen)

/-- C3: `choose_account_plan` only returns a count greater than one when that
candidate's estimate beats the `count = 1` candidate's estimate by more than
the 0.9 second hysteresis margin; when no candidate count of 2 or more clears
that margin, the single-account plan (count 1, its estimate, its account,
its capacity) is returned. -/
theorem C3_plan_hysteresis (total_words : ℕ) (mode : Mode) (snapshot : Option JValue)
    (h : 0 < total_words) :
    (1 < (choose_account_plan total_words mode snapshot).1 →
      (choose_account_plan total_words mode snapshot).2.1 + 0.9
        < plan_estimate total_words mode snapshot (plan_profiles mode snapshot) 1)
    ∧ ((∀ c, 2 ≤ c → c ≤ max_candidate_count total_words mode (plan_profiles mode snapshot) →
        ¬ (plan_estimate total_words mode snapshot (plan_profiles mode snapshot) c + 0.9
          < plan_estimate total_words mode snapshot (plan_profiles mode snapshot) 1)) →
      choose_account_plan total_words mode snapshot
        = (1, plan_estimate total_words mode snapshot (plan_profiles mode snapshot) 1,
            ((plan_profiles mode snapshot).take 1).map Prod.fst,
            max 100 (((plan_profiles mode snapshot).take 1).map Prod.snd).sum)) := by
  obtain ⟨p0, rest, hpp⟩ := List.exists_cons_of_ne_nil (plan_profiles_ne_nil mode snapshot)
  unfold choose_account_plan
  rw [if_neg (by omega)]
  rw [hpp]
  dsimp only
  rw [← hpp]
  constructor
  · intro hgt
    exact (plan_fold_le total_words mode snapshot (plan_profiles mode snapshot) _
      (plan_first_choice total_words mode snapshot (plan_profiles mode snapshot))
      (le_refl _) (by intro hlt; exact absurd hlt (by simp [plan_first_choice]))).2 hgt
  · intro hno
    rw [plan_fold_stay total_words mode snapshot (plan_profiles mode snapshot) _ _ ?_]
    · rfl
    · intro c hc
      have hmem := List.mem_range'_1.mp hc
      have hge : 2 ≤ c := hmem.1
      have hlt : c < 2 + (max_candidate_count total_words mode (plan_profiles mode snapshot) - 1) :=
        hmem.2
      have hcand : 1 ≤ max_candidate_count total_words mode (plan_profiles mode snapshot) := by
        unfold max_candidate_count
        have : 1 ≤ (plan_profiles mode snapshot).length := by
          rw [hpp]; simp
        omega
      exact hno c hge (by omega)

theorem C3_plan_hysteresis_witness :
    (0 : ℕ) < 50 ∧
    ((1 < (choose_account_plan 50 Mode.standard none).1 →
      (choose_account_plan 50 Mode.standard none).2.1 + 0.9
        < plan_estimate 50 Mode.standard none (plan_profiles Mode.standard none) 1)
    ∧ choose_account_plan 50 Mode.standard none
        = (1, plan_estimate 50 Mode.standard none (plan_profiles Mode.standard none) 1,
            ((plan_profiles Mode.standard none).take 1).map Prod.fst,
            max 100 (((plan_profiles Mode.standard none).take 1).map Prod.snd).sum)) := by
  refine ⟨by norm_num, (C3_plan_hysteresis 50 Mode.standard none (by norm_num)).1, ?_⟩
  apply (C3_plan_hysteresis 50 Mode.standard none (by norm_num)).2
  intro c h2 hle
  have h0 : ⌊((50 : ℕ) : ℚ) / MODE_MIN_WORDS_PER_ACCOUNT Mode.standard⌋ = 0 := by
    rw [Int.floor_eq_zero_iff, Set.mem_Ico]
    constructor <;> norm_num [ MODE_MIN_WORDS_PER_ACCOUNT]
  have hfl : max_candidate_count 50 Mode.standard (plan_profiles Mode.standard none) = 1 := by
    unfold max_candidate_count
    rw [h0]
    have hlen : 1 ≤ (plan_profiles Mode.standard none).length :=
      List.length_pos.mpr (plan_profiles_ne_nil Mode.standard none)
    simp only [Int.toNat_zero]
    omega
  rw [hfl] at hle
  omega

theorem min_by_key_foldl_mem (key : String → ℕ × ℕ) :
    ∀ (rest : List String) (best : String),
    rest.foldl (fun b k => if tupLt (key k) (key b) then k else b) best ∈ best :: rest := by
  intro rest
  induction rest with
  | nil => simp
  | cons c cs ih =>
    intro best
    simp only [List.foldl_cons]
    split_ifs with h
    · exact List.mem_cons_of_mem _ (ih c)
    · rcases List.mem_cons.mp (ih best) with h1 | h1
      · exact List.mem_cons.mpr (Or.inl h1)
      · exact List.mem_cons_of_mem _ (List.mem_cons_of_mem _ h1)

theorem min_by_key_mem (key : String → ℕ × ℕ) (l : List String) (hl : l ≠ []) :
    min_by_key key l ∈ l := by
  match l with
  | a :: rest => exact min_by_key_foldl_mem key rest a

theorem sum_update_append (accounts : List String) (hnd : accounts.Nodup)
    (t : String) (ht : t ∈ accounts) (f : String → List ParaphraseItem)
    (item : ParaphraseItem) :
    (accounts.map (fun k =>
        ((if k = t then f k ++ [item] else f k : List ParaphraseItem) : Multiset ParaphraseItem))).sum
      = (accounts.map (fun k => (f k : Multiset ParaphraseItem))).sum + {item} := by
  induction accounts with
  | nil => exact absurd ht (by simp)
  | cons a rest ih =>
    rcases List.nodup_cons.mp hnd with ⟨hna, hndr⟩
    simp only [List.map_cons, List.sum_cons]
    rcases List.mem_cons.mp ht with hta | htr
    · subst hta
      rw [if_pos rfl]
      have htail : rest.map (fun k =>
          ((if k = t then f k ++ [item] else f k : List ParaphraseItem) : Multiset ParaphraseItem))
          = rest.map (fun k => (f k : Multiset ParaphraseItem)) := by
        apply List.map_congr_left
        intro k hk
        rw [if_neg (by rintro rfl; exact hna hk)]
      rw [htail]
      have hco : ((f t ++ [item] : List ParaphraseItem) : Multiset ParaphraseItem)
          = (f t : Multiset ParaphraseItem) + {item} := rfl
      rw [hco, add_right_comm]
    · have htna : ¬ (a = t) := by rintro rfl; exact hna htr
      rw [if_neg htna, ih hndr htr, add_assoc]

theorem distribute_conservation (accounts : List String) (hnd : accounts.Nodup)
    (hne : accounts ≠ []) :
    ∀ (items : List ParaphraseItem) (buckets : String → List ParaphraseItem)
      (bucket_words : String → ℕ),
    (accounts.map (fun k =>
        ((distribute accounts items buckets bucket_words k : List ParaphraseItem) :
          Multiset ParaphraseItem))).sum
      = (accounts.map (fun k => (buckets k : Multiset ParaphraseItem))).sum + ↑items := by
  intro items
  induction items with
  | nil => intro buckets bucket_words; simp [distribute]
  | cons item rest ih =>
    intro buckets bucket_words
    show (accounts.map (fun k =>
        ((distribute accounts rest
          (fun k => if k = min_by_key
              (fun key => (bucket_words key, (buckets key).length)) accounts
            then buckets k ++ [item] else buckets k)
          (fun k => if k = min_by_key
              (fun key => (bucket_words key, (buckets key).length)) accounts
            then bucket_words k + item.word_count else bucket_words k) k :
          List ParaphraseItem) : Multiset ParaphraseItem))).sum = _
    rw [ih]
    rw [sum_update_append accounts hnd _
      (min_by_key_mem (fun key => (bucket_words key, (buckets key).length)) accounts hne)
      buckets item]
    have hcons : ((item :: rest : List ParaphraseItem) : Multiset ParaphraseItem)
        = {item} + (rest : Multiset ParaphraseItem) := by
      simp
    rw [hcons]
    abel

theorem distribute_sublist (accounts : List String) :
    ∀ (items : List ParaphraseItem) (buckets : String → List ParaphraseItem)
      (bucket_words : String → ℕ) (processed : List ParaphraseItem),
    (∀ k, buckets k <+ processed) →
    ∀ k, distribute accounts items buckets bucket_words k <+ processed ++ items := by
  intro items
  induction items with
  | nil =>
    intro buckets bucket_words processed hb k
    simpa [distribute] using hb k
  | cons item rest ih =>
    intro buckets bucket_words processed hb k
    show distribute accounts rest
      (fun k => if k = min_by_key
          (fun key => (bucket_words key, (buckets key).length)) accounts
        then buckets k ++ [item] else buckets k)
      (fun k => if k = min_by_key
          (fun key => (bucket_words key, (buckets key).length)) accounts
        then bucket_words k + item.word_count else bucket_words k) k <+ _
    have hb2 : ∀ k2, (if k2 = min_by_key
        (fun key => (bucket_words key, (buckets key).length)) accounts
      then buckets k2 ++ [item] else buckets k2) <+ processed ++ [item] := by
      intro k2
      split_ifs with hk2
      · exact (hb k2).append (List.Sublist.refl [item])
      · exact (hb k2).trans (List.sublist_append_left processed [item])
    have := ih _
      (fun k2 => if k2 = min_by_key
          (fun key => (bucket_words key, (buckets key).length)) accounts
        then bucket_words k2 + item.word_count else bucket_words k2)
      (processed ++ [item]) hb2 k
    simpa [List.append_assoc] using this

theorem chunk_accounts_nodup {selected : List String} (hnd : selected.Nodup) :
    (chunk_accounts selected).Nodup := by
  unfold chunk_accounts
  dsimp only
  split_ifs
  · simp
  · exact hnd.filter _

theorem chunk_accounts_ne_nil (selected : List String) : chunk_accounts selected ≠ [] := by
  unfold chunk_accounts
  dsimp only
  split_ifs with h
  · simp
  · simpa [List.isEmpty_iff] using h

theorem filterMap_buckets_sum (accounts : List String)
    (buckets : String → List ParaphraseItem) :
    ((accounts.filterMap (fun key => if (buckets key).isEmpty then none
        else some (key, buckets key))).map
      (fun c => (c.2 : Multiset ParaphraseItem))).sum
      = (accounts.map (fun k => (buckets k : Multiset ParaphraseItem))).sum := by
  induction accounts with
  | nil => rfl
  | cons a rest ih =>
    simp only [List.filterMap_cons]
    split_ifs with h
    · rw [ih]
      have : buckets a = [] := List.isEmpty_iff.mp h
      simp [this]
    · simp only [List.map_cons, List.sum_cons]
      rw [ih]

theorem chunks_conservation (items : List ParaphraseItem) (selected : List String)
    (hnd : selected.Nodup) :
    ((split_into_account_chunks items selected).map
      (fun c => (c.2 : Multiset ParaphraseItem))).sum = ↑items := by
  unfold split_into_account_chunks
  rw [filterMap_buckets_sum]
  rw [distribute_conservation (chunk_accounts selected) (chunk_accounts_nodup hnd)
    (chunk_accounts_ne_nil selected) items _ _]
  simp

theorem chunks_sublist (items : List ParaphraseItem) (selected : List String) :
    ∀ c ∈ split_into_account_chunks items selected, c.2 <+ items := by
  unfold split_into_account_chunks
  intro c hc
  obtain ⟨k, hk, hke⟩ := List.mem_filterMap.mp hc
  by_cases h : (distribute (chunk_accounts selected) items
      (fun _ => []) (fun _ => 0) k).isEmpty = true
  · rw [if_pos h] at hke
    exact absurd hke (by simp)
  · rw [if_neg h] at hke
    injection hke with hke
    have := distribute_sublist (chunk_accounts selected) items (fun _ => []) (fun _ => 0)
      [] (fun k2 => List.Sublist.refl []) k
    rw [← hke]
    simpa using this

/-- C1 (amended to duplicate-free selected account lists): the chunks of
`split_into_account_chunks` partition the batch exactly — the multiset union
of all chunks' items equals the batch's items, and each chunk's item list is
a sublist of the batch (so per-account order is the batch order).  With a
duplicated selected key the code emits the same bucket twice, duplicating
items (see the counterexample). -/
theorem C1_chunks_partition (items : List ParaphraseItem) (selected : List String)
    (_hne : selected ≠ []) (hnd : selected.Nodup) :
    ((split_into_account_chunks items selected).map
      (fun c => (c.2 : Multiset ParaphraseItem))).sum = ↑items
    ∧ ∀ c ∈ split_into_account_chunks items selected, c.2 <+ items :=
  ⟨chunks_conservation items selected hnd, chunks_sublist items selected⟩

theorem C1_chunks_partition_counterexample :
    ¬ (((split_into_account_chunks [⟨0, [], 1⟩] ["acc1", "acc1"]).map
      (fun c => (c.2 : Multiset ParaphraseItem))).sum
        = ↑[(⟨0, [], 1⟩ : ParaphraseItem)]) := by
  decide

theorem C1_chunks_partition_witness :
    (["acc1", "acc2"] ≠ ([] : List String)) ∧ (["acc1", "acc2"] : List String).Nodup ∧
    (((split_into_account_chunks [⟨0, [], 2⟩, ⟨1, [], 3⟩, ⟨2, [], 4⟩] ["acc1", "acc2"]).map
      (fun c => (c.2 : Multiset ParaphraseItem))).sum
        = ↑[(⟨0, [], 2⟩ : ParaphraseItem), ⟨1, [], 3⟩, ⟨2, [], 4⟩]
    ∧ ∀ c ∈ split_into_account_chunks [⟨0, [], 2⟩, ⟨1, [], 3⟩, ⟨2, [], 4⟩] ["acc1", "acc2"],
        c.2 <+ [(⟨0, [], 2⟩ : ParaphraseItem), ⟨1, [], 3⟩, ⟨2, [], 4⟩]) :=
  ⟨by decide, by decide,
    C1_chunks_partition [⟨0, [], 2⟩, ⟨1, [], 3⟩, ⟨2, [], 4⟩] ["acc1", "acc2"]
      (by decide) (by decide)⟩

theorem chunks_length_le (chunks : List (String × List ParaphraseItem))
    (hne : ∀ c ∈ chunks, c.2 ≠ []) :
    chunks.length ≤ Multiset.card ((chunks.map
      (fun c => (c.2 : Multiset ParaphraseItem))).sum) := by
  induction chunks with
  | nil => simp
  | cons a rest ih =>
    simp only [List.map_cons, List.sum_cons, Multiset.card_add, List.length_cons]
    have h1 : 1 ≤ Multiset.card (a.2 : Multiset ParaphraseItem) := by
      have ha := hne a (by simp)
      simp only [Multiset.coe_card]
      exact List.length_pos.mpr ha
    have h2 := ih (fun c hc => hne c (by simp [hc]))
    omega

theorem chunks_nonempty (items : List ParaphraseItem) (selected : List String) :
    ∀ c ∈ split_into_account_chunks items selected, c.2 ≠ [] := by
  intro c hc
  rw [split_into_account_chunks] at hc
  obtain ⟨k, hk, hke⟩ := List.mem_filterMap.mp hc
  by_cases h : (distribute (chunk_accounts selected) items
      (fun _ => []) (fun _ => 0) k).isEmpty = true
  · rw [if_pos h] at hke
    exact absurd hke (by simp)
  · rw [if_neg h] at hke
    injection hke with hke
    rw [← hke]
    simpa [List.isEmpty_iff] using h

/-- C10: every chunk returned by `split_into_account_chunks` has a non-empty
item list (accounts the balancer left empty are omitted), so with fewer
items than (duplicate-free) selected accounts the request carries strictly
fewer account payloads than the plan's account count. -/
theorem C10_chunks_nonempty (items : List ParaphraseItem) (selected : List String) :
    (∀ c ∈ split_into_account_chunks items selected, c.2 ≠ [])
    ∧ (selected.Nodup → items.length < selected.length →
      (split_into_account_chunks items selected).length < selected.length) := by
  refine ⟨chunks_nonempty items selected, ?_⟩
  intro hnd hlen
  have hcons := chunks_conservation items selected hnd
  have hle := chunks_length_le (split_into_account_chunks items selected)
    (chunks_nonempty items selected)
  rw [hcons] at hle
  simp only [Multiset.coe_card] at hle
  omega

theorem C10_chunks_nonempty_witness :
    (∀ c ∈ split_into_account_chunks [(⟨0, [], 5⟩ : ParaphraseItem)] ["acc1", "acc2"],
      c.2 ≠ [])
    ∧ (split_into_account_chunks [(⟨0, [], 5⟩ : ParaphraseItem)] ["acc1", "acc2"]).length
        < (["acc1", "acc2"] : List String).length :=
  ⟨(C10_chunks_nonempty [(⟨0, [], 5⟩ : ParaphraseItem)] ["acc1", "acc2"]).1,
    (C10_chunks_nonempty [(⟨0, [], 5⟩ : ParaphraseItem)] ["acc1", "acc2"]).2
      (by decide) (by decide)⟩

theorem take_batch_loop_spec (max_items max_words : ℕ) :
    ∀ (remaining batch : List ParaphraseItem) (total : ℕ),
    total = (batch.map ParaphraseItem.word_count).sum →
    batch.length ≤ max_items →
    (2 ≤ batch.length → total ≤ max_words) →
    ∃ k, k ≤ remaining.length
      ∧ take_batch_loop max_items max_words remaining batch total
          = (batch ++ remaining.take k,
             total + ((remaining.take k).map ParaphraseItem.word_count).sum)
      ∧ (batch ++ remaining.take k).length ≤ max_items
      ∧ (2 ≤ (batch ++ remaining.take k).length →
          total + ((remaining.take k).map ParaphraseItem.word_count).sum ≤ max_words)
      ∧ ∀ h : k < remaining.length,
          max_items ≤ (batch ++ remaining.take k).length
          ∨ (batch ++ remaining.take k ≠ []
            ∧ max_words < total + ((remaining.take k).map ParaphraseItem.word_count).sum
                + (remaining.get ⟨k, h⟩).word_count) := by
  intro remaining
  induction remaining with
  | nil =>
    intro batch total htot hlen hword
    refine ⟨0, Nat.zero_le _, ?_, ?_, ?_, ?_⟩
    · simp [take_batch_loop]
    · simpa using hlen
    · simpa using hword
    · intro h
      exact absurd h (by simp)
  | cons next rest ih =>
    intro batch total htot hlen hword
    by_cases h1 : batch.length < max_items
    · by_cases h2 : batch ≠ [] ∧ total + next.word_count > max_words
      · refine ⟨0, Nat.zero_le _, ?_, ?_, ?_, ?_⟩
        · simp only [take_batch_loop]
          rw [if_pos h1, if_pos h2]
          simp
        · simpa using hlen
        · simpa using hword
        · intro h
          right
          refine ⟨by simpa using h2.1, ?_⟩
          have hget : (next :: rest).get ⟨0, h⟩ = next := rfl
          rw [hget]
          simpa using h2.2
      · have hrec := ih (batch ++ [next]) (total + next.word_count)
          (by rw [htot]; simp)
          (by simpa using h1)
          (by
            intro hl2
            rcases not_and_or.mp h2 with hb | hw
            · have hbnil : batch = [] := not_not.mp hb
              rw [hbnil] at hl2
              simp at hl2
            · omega)
        obtain ⟨k, hk, heq, hklen, hkword, hkmax⟩ := hrec
        have hlist : batch ++ List.take (k + 1) (next :: rest)
            = (batch ++ [next]) ++ List.take k rest := by
          simp only [List.take_succ_cons]
          rw [List.append_cons]
        refine ⟨k + 1, by simp only [List.length_cons]; omega, ?_, ?_, ?_, ?_⟩
        · simp only [take_batch_loop]
          rw [if_pos h1, if_neg h2, heq, hlist]
          simp only [List.take_succ_cons, List.map_cons, List.sum_cons, Prod.mk.injEq]
          exact ⟨trivial, by omega⟩
        · rw [hlist]
          exact hklen
        · intro hl2
          rw [hlist] at hl2
          have := hkword hl2
          simp only [List.take_succ_cons, List.map_cons, List.sum_cons]
          omega
        · intro h
          have hr : k < rest.length := by
            simp only [List.length_cons] at h
            omega
          rcases hkmax hr with hcase | hcase
          · left
            rw [hlist]
            exact hcase
          · right
            refine ⟨by rw [hlist]; simp, ?_⟩
            have hget : (next :: rest).get ⟨k + 1, h⟩ = rest.get ⟨k, hr⟩ := rfl
            rw [hget]
            have hb := hcase.2
            simp only [List.take_succ_cons, List.map_cons, List.sum_cons]
            omega
    · refine ⟨0, Nat.zero_le _, ?_, ?_, ?_, ?_⟩
      · simp only [take_batch_loop]
        rw [if_neg h1]
        simp
      · simpa using hlen
      · simpa using hword
      · intro h
        left
        have := le_of_not_lt h1
        simpa using this

/-- C6: `take_request_batch` takes a contiguous run of items from the cursor
(no skip, no reorder), never returns an empty batch while items remain, stays
within the item cap (except the always-admitted first item), keeps the word
total within the cap whenever the batch has at least two items, and stops
only because the item cap is reached or the next item would overflow the
word cap. -/
theorem C6_take_request_batch (items : List ParaphraseItem)
    (start_index max_items max_words : ℕ)
    (batch : List ParaphraseItem) (next_index total : ℕ)
    (hr : take_request_batch items start_index max_items max_words
      = (batch, next_index, total)) :
    batch = (items.drop start_index).take batch.length
    ∧ next_index = start_index + batch.length
    ∧ total = (batch.map ParaphraseItem.word_count).sum
    ∧ (start_index < items.length → batch ≠ [])
    ∧ batch.length ≤ max max_items 1
    ∧ (2 ≤ batch.length → total ≤ max_words)
    ∧ ∀ h : next_index < items.length,
        max_items ≤ batch.length
        ∨ (batch ≠ []
          ∧ max_words < total + (items.get ⟨next_index, h⟩).word_count) := by
  obtain ⟨k, hk, heq, hklen, hkword, hkmax⟩ :=
    take_batch_loop_spec max_items max_words (items.drop start_index) [] 0
      (by simp) (Nat.zero_le _) (by simp)
  simp only [List.nil_append, Nat.zero_add, List.length_nil] at heq hklen hkword hkmax
  unfold take_request_batch at hr
  rw [heq] at hr
  dsimp only at hr
  by_cases hfb : (List.take k (items.drop start_index)).isEmpty = true
      ∧ start_index < items.length
  · rw [if_pos hfb] at hr
    have hDne : items.drop start_index ≠ [] := by
      intro hD
      have := List.length_drop start_index items
      rw [hD] at this
      simp at this
      omega
    obtain ⟨d0, D, hD⟩ := List.exists_cons_of_ne_nil hDne
    rw [hD] at hr
    simp only [List.head?_cons] at hr
    have hk0 : k = 0 := by
      rcases List.take_eq_nil_iff.mp (List.isEmpty_iff.mp hfb.1) with h0 | h0
      · exact h0
      · exact absurd (hD ▸ h0) (by simp)
    obtain ⟨hb, hn, ht⟩ : [d0] = batch ∧ start_index + 1 = next_index ∧ d0.word_count = total := by
      simpa [Prod.mk.injEq] using hr
    subst hb
    refine ⟨by rw [hD]; rfl, by simp only [List.length_cons, List.length_nil]; omega,
      by simp [← ht], fun _ => by simp, ?_, by simp, ?_⟩
    · simp only [List.length_cons, List.length_nil]
      exact le_max_right _ _
    · intro h
      left
      have hkd : (0 : ℕ) < (items.drop start_index).length := by
        rw [hD]; simp
      rcases hkmax (hk0 ▸ hkd) with hcase | hcase
      · simp only [hk0, List.take_zero, List.length_nil] at hcase
        omega
      · simp only [hk0, List.take_zero] at hcase
        exact absurd rfl hcase.1
  · rw [if_neg hfb] at hr
    obtain ⟨hb, hn, ht⟩ : List.take k (items.drop start_index) = batch
        ∧ start_index + (List.take k (items.drop start_index)).length = next_index
        ∧ ((List.take k (items.drop start_index)).map ParaphraseItem.word_count).sum
            = total := by
      simpa [Prod.mk.injEq] using hr
    subst hb
    subst hn
    subst ht
    have hlen2 : (List.take k (items.drop start_index)).length = k := by
      rw [List.length_take]
      omega
    refine ⟨?_, rfl, rfl, ?_, ?_, hkword, ?_⟩
    · rw [hlen2]
    · intro hstart hbe
      exact hfb ⟨by simp [hbe], hstart⟩
    · rw [hlen2]
      refine le_trans ?_ (le_max_left max_items 1)
      rw [← hlen2]
      exact hklen
    · intro h
      have hkd : k < (items.drop start_index).length := by
        rw [List.length_drop]
        rw [hlen2] at h
        omega
      rcases hkmax hkd with hcase | hcase
      · left
        exact hcase
      · right
        refine ⟨hcase.1, ?_⟩
        have hget : (items.drop start_index).get ⟨k, hkd⟩
            = items.get ⟨start_index + (List.take k (items.drop start_index)).length, h⟩ := by
          simp [List.get_eq_getElem, hlen2, List.getElem_drop]
        rw [← hget]
        exact hcase.2

theorem C6_take_request_batch_witness :
    take_request_batch [⟨0, [], 3⟩, ⟨1, [], 4⟩, ⟨2, [], 10⟩] 0 10 5
      = ([⟨0, [], 3⟩], 1, 3)
    ∧ ([(⟨0, [], 3⟩ : ParaphraseItem)] ≠ [])
    ∧ ∀ h : (1 : ℕ) < ([⟨0, [], 3⟩, ⟨1, [], 4⟩, ⟨2, [], 10⟩] : List ParaphraseItem).length,
        10 ≤ ([(⟨0, [], 3⟩ : ParaphraseItem)]).length
        ∨ ([(⟨0, [], 3⟩ : ParaphraseItem)] ≠ []
          ∧ 5 < 3 + (([⟨0, [], 3⟩, ⟨1, [], 4⟩, ⟨2, [], 10⟩]
              : List ParaphraseItem).get ⟨1, h⟩).word_count) := by
  have hre : take_request_batch [⟨0, [], 3⟩, ⟨1, [], 4⟩, ⟨2, [], 10⟩] 0 10 5
      = ([⟨0, [], 3⟩], 1, 3) := by decide
  have hthm := C6_take_request_batch [⟨0, [], 3⟩, ⟨1, [], 4⟩, ⟨2, [], 10⟩] 0 10 5
    [⟨0, [], 3⟩] 1 3 hre
  exact ⟨hre, hthm.2.2.2.1 (by decide), fun h => hthm.2.2.2.2.2.2 h⟩

theorem exists_nonspace_dropWhile (p : Char → Bool) (l : List Char)
    (h : ∃ c ∈ l, p c = false) : ∃ c ∈ l.dropWhile p, p c = false := by
  induction l with
  | nil => exact absurd h (by simp)
  | cons x t ih =>
    rw [List.dropWhile_cons]
    by_cases hx : p x = true
    · rw [if_pos hx]
      obtain ⟨c, hc, hcf⟩ := h
      rcases List.mem_cons.mp hc with rfl | hct
      · rw [hx] at hcf
        exact absurd hcf (by simp)
      · exact ih ⟨c, hct, hcf⟩
    · rw [if_neg hx]
      exact h

theorem strip_nonspace (l : List Char) (h : ∃ c ∈ l, pySpace c = false) :
    ∃ c ∈ strip l, pySpace c = false := by
  unfold strip
  have h1 := exists_nonspace_dropWhile pySpace l h
  have h2 : ∃ c ∈ (l.dropWhile pySpace).reverse, pySpace c = false := by
    obtain ⟨c, hc, hcf⟩ := h1
    exact ⟨c, List.mem_reverse.mpr hc, hcf⟩
  have h3 := exists_nonspace_dropWhile pySpace _ h2
  obtain ⟨c, hc, hcf⟩ := h3
  exact ⟨c, List.mem_reverse.mpr hc, hcf⟩

theorem strip_ne_nil (l : List Char) (h : ∃ c ∈ l, pySpace c = false) : strip l ≠ [] := by
  obtain ⟨c, hc, _⟩ := strip_nonspace l h
  exact List.ne_nil_of_mem hc

theorem strip_eq_nil_of_space (l : List Char) (h : ∀ c ∈ l, pySpace c = true) :
    strip l = [] := by
  unfold strip
  have h1 : l.dropWhile pySpace = [] := List.dropWhile_eq_nil_iff.mpr h
  rw [h1]
  rfl

theorem exists_nonspace_of_strip_ne_nil (l : List Char) (h : strip l ≠ []) :
    ∃ c ∈ l, pySpace c = false := by
  by_contra hc
  push_neg at hc
  exact h (strip_eq_nil_of_space l (fun c hm => by
    have := hc c hm
    simpa using this))

theorem mem_dropWhile_newline (l : List Char) (c : Char) (hc : c ∈ l)
    (hne : (c == '\n') = false) : c ∈ l.dropWhile (fun d => d == '\n') := by
  have hsplit := List.takeWhile_append_dropWhile (p := fun d => d == '\n') (l := l)
  rw [← hsplit] at hc
  rcases List.mem_append.mp hc with htk | hdr
  · have := List.mem_takeWhile_imp htk
    rw [this] at hne
    exact absurd hne (by simp)
  · exact hdr

theorem splitBlankAux_exists_piece :
    ∀ (cs acc : List Char),
    ((∃ c ∈ cs, pySpace c = false) ∨ (∃ c ∈ acc, pySpace c = false)) →
    ∃ piece ∈ splitBlankAux cs acc, ∃ c ∈ piece, pySpace c = false := by
  intro cs acc h
  induction cs, acc using splitBlankAux.induct with
  | case1 acc =>
    rcases h with h | h
    · exact absurd h (by simp)
    · obtain ⟨c, hc, hcf⟩ := h
      exact ⟨acc.reverse, by simp [splitBlankAux], c, List.mem_reverse.mpr hc, hcf⟩
  | case2 rest acc ih =>
    rw [splitBlankAux]
    rcases h with h | h
    · obtain ⟨c, hc, hcf⟩ := h
      have hcn : (c == '\n') = false := by
        by_cases hcc : c = '\n'
        · rw [hcc] at hcf
          simp [pySpace] at hcf
        · simp [hcc]
      have hcr : c ∈ rest := by
        rcases List.mem_cons.mp hc with rfl | hc2
        · simp at hcn
        · rcases List.mem_cons.mp hc2 with rfl | hc3
          · simp at hcn
          · exact hc3
      obtain ⟨piece, hp, hpc⟩ := ih (Or.inl ⟨c, mem_dropWhile_newline rest c hcr hcn, hcf⟩)
      exact ⟨piece, List.mem_cons_of_mem _ hp, hpc⟩
    · obtain ⟨c, hc, hcf⟩ := h
      exact ⟨acc.reverse, List.mem_cons_self _ _, c, List.mem_reverse.mpr hc, hcf⟩
  | case3 c rest acc hpat ih =>
    rw [splitBlankAux]
    · rcases h with h | h
      · obtain ⟨c2, hc2, hc2f⟩ := h
        rcases List.mem_cons.mp hc2 with rfl | hc3
        · exact ih (Or.inr ⟨c2, List.mem_cons_self _ _, hc2f⟩)
        · exact ih (Or.inl ⟨c2, hc3, hc2f⟩)
      · obtain ⟨c2, hc2, hc2f⟩ := h
        exact ih (Or.inr ⟨c2, List.mem_cons_of_mem _ hc2, hc2f⟩)
    · exact hpat

theorem expandPart_ne_nil (part : List Char) (h : ∃ c ∈ part, pySpace c = false) :
    expandPart part ≠ [] := by
  unfold expandPart
  split_ifs with hbp
  · obtain ⟨piece, hp, hpc⟩ := splitBlankAux_exists_piece part [] (Or.inl h)
    have hsp : strip piece ≠ [] := strip_ne_nil piece hpc
    have hmem : strip piece ∈ ((splitBlankAux part []).map strip).filter
        (fun p => !p.isEmpty) := by
      apply List.mem_filter.mpr
      refine ⟨List.mem_map.mpr ⟨piece, hp, rfl⟩, ?_⟩
      simpa [List.isEmpty_iff] using hsp
    exact List.ne_nil_of_mem hmem
  · simp

theorem flatten_length_ge (parts : List (List Char))
    (h : ∀ p ∈ parts, expandPart p ≠ []) :
    parts.length ≤ ((parts.map expandPart).flatten).length := by
  induction parts with
  | nil => simp
  | cons p rest ih =>
    simp only [List.map_cons, List.flatten_cons, List.length_append, List.length_cons]
    have h1 : 1 ≤ (expandPart p).length :=
      List.length_pos.mpr (h p (List.mem_cons_self _ _))
    have h2 := ih (fun q hq => h q (List.mem_cons_of_mem _ hq))
    omega

theorem primary_parts_nonspace (text : List Char) :
    ∀ part ∈ ((splitDelimAux text []).map strip).filter (fun p => !p.isEmpty),
    ∃ c ∈ part, pySpace c = false := by
  intro part hp
  obtain ⟨hmap, hne⟩ := List.mem_filter.mp hp
  obtain ⟨q, _, hq⟩ := List.mem_map.mp hmap
  subst hq
  apply strip_nonspace
  apply exists_nonspace_of_strip_ne_nil
  simpa [List.isEmpty_iff] using hne

/-- C7: `parse_paraphrase_parts` behaves exactly as the spec describes — when
the primary split's count mismatches the expected count, the double-newline
secondary split is returned iff it is exact or strictly reduces the absolute
count mismatch, otherwise the primary split is returned.  (When the primary
count exceeds the expected count the code skips the secondary attempt, but
the secondary split can only grow the count, so the observable result is the
same.) -/
theorem C7_parse_secondary_split (text : List Char) (expected_count : ℕ) :
    parse_paraphrase_parts text expected_count
      = parse_paraphrase_parts_spec text expected_count := by
  unfold parse_paraphrase_parts parse_paraphrase_parts_spec
  dsimp only
  have hge := flatten_length_ge
    (((splitDelimAux text []).map strip).filter (fun p => !p.isEmpty))
    (fun p hp => expandPart_ne_nil p (primary_parts_nonspace text p hp))
  set P := ((splitDelimAux text []).map strip).filter (fun p => !p.isEmpty) with hP
  set R := (P.map expandPart).flatten with hR
  rcases lt_trichotomy P.length expected_count with hlt | heq | hgt
  · rw [if_pos hlt, if_neg (show ¬ P.length = expected_count by omega)]
    by_cases h1 : R.length = expected_count
    · rw [if_pos h1, if_pos (Or.inl h1)]
    · rw [if_neg h1]
      by_cases h2 : ((R.length : ℤ) - expected_count).natAbs
          < ((P.length : ℤ) - expected_count).natAbs
      · rw [if_pos h2, if_pos (Or.inr h2)]
      · have hcond : ¬(R.length = expected_count
            ∨ ((R.length : ℤ) - expected_count).natAbs
              < ((P.length : ℤ) - expected_count).natAbs) := by
          rintro (hc | hc)
          · exact h1 hc
          · exact h2 hc
        rw [if_neg h2, if_neg hcond]
  · rw [if_neg (show ¬ P.length < expected_count by omega), if_pos heq]
  · have hcond : ¬(R.length = expected_count
        ∨ ((R.length : ℤ) - expected_count).natAbs
          < ((P.length : ℤ) - expected_count).natAbs) := by
      rintro (hc | hc) <;> omega
    rw [if_neg (show ¬ P.length < expected_count by omega),
      if_neg (show ¬ P.length = expected_count by omega), if_neg hcond]

theorem recover_one_spec (remote : ℕ → Option (List Char)) (item : ParaphraseItem)
    (depth k : ℕ) :
    (∃ e, recover_one remote item depth k = .error e)
    ∨ ∃ parts, recover_one remote item depth k = .ok (parts, k + 1) ∧ parts.length = 1 := by
  unfold recover_one
  cases hrem : remote k
  · exact Or.inl ⟨_, rfl⟩
  · rename_i text
    dsimp only
    split_ifs with h1 h2
    · exact Or.inr ⟨_, rfl, h1⟩
    · exact Or.inl ⟨_, rfl⟩
    · exact Or.inr ⟨_, rfl, rfl⟩

theorem recover_singles_spec (remote : ℕ → Option (List Char)) :
    ∀ (rest : List ParaphraseItem) (depth k : ℕ),
    (∃ e, recover_singles remote rest depth k = .error e)
    ∨ ∃ parts, recover_singles remote rest depth k = .ok (parts, k + rest.length)
      ∧ parts.length = rest.length := by
  intro rest
  induction rest with
  | nil =>
    intro depth k
    exact Or.inr ⟨[], by simp [recover_singles], rfl⟩
  | cons item more ih =>
    intro depth k
    rw [recover_singles]
    rcases recover_one_spec remote item depth k with ⟨e, he⟩ | ⟨one, hone, honelen⟩
    · simp only [he]
      exact Or.inl ⟨e, rfl⟩
    · simp only [hone]
      rcases ih depth (k + 1) with ⟨e, he⟩ | ⟨others, hothers, hotherslen⟩
      · simp only [he]
        exact Or.inl ⟨e, rfl⟩
      · simp only [hothers]
        refine Or.inr ⟨one ++ others, ?_, ?_⟩
        · have : k + 1 + more.length = k + (item :: more).length := by
            simp only [List.length_cons]
            omega
          rw [this]
        · simp only [List.length_append, List.length_cons, honelen, hotherslen]
          omega

theorem recover_one_eq (remote : ℕ → Option (List Char)) (item : ParaphraseItem)
    (depth k : ℕ) :
    recover_account_chunk_parts remote [item] depth k = recover_one remote item depth k := by
  rw [recover_account_chunk_parts]
  unfold recover_one
  cases hrem : remote k <;> simp [hrem]

theorem recover_spec (remote : ℕ → Option (List Char)) :
    ∀ (n : ℕ) (items : List ParaphraseItem) (depth k : ℕ),
    items.length = n →
    (∃ e, recover_account_chunk_parts remote items depth k = .error e)
    ∨ ∃ parts kend, recover_account_chunk_parts remote items depth k = .ok (parts, kend)
      ∧ parts.length = items.length
      ∧ kend ≤ k + 3 * items.length
      ∧ (items ≠ [] → kend + 2 ≤ k + 3 * items.length) := by
  intro n
  induction n using Nat.strong_induction_on with
  | _ n ih =>
    intro items depth k hlen
    rw [recover_account_chunk_parts]
    by_cases hemp : items.isEmpty = true
    · rw [if_pos hemp]
      have : items = [] := List.isEmpty_iff.mp hemp
      exact Or.inr ⟨[], k, rfl, by simp [this], by omega,
        fun hne => absurd this hne⟩
    · rw [if_neg hemp]
      have hne : items ≠ [] := fun hc => hemp (by simp [hc])
      have hlenpos : 1 ≤ items.length := List.length_pos.mpr hne
      cases hrem : remote k
      · exact Or.inl ⟨_, rfl⟩
      · rename_i text
        dsimp only
        by_cases hp : (parse_paraphrase_parts text items.length).length = items.length
        · rw [if_pos hp]
          exact Or.inr ⟨_, k + 1, rfl, hp, by omega, fun _ => by omega⟩
        · rw [if_neg hp]
          by_cases h1 : items.length = 1
          · rw [if_pos h1]
            by_cases hs : (strip text).isEmpty = true
            · rw [if_pos hs]
              exact Or.inl ⟨_, rfl⟩
            · rw [if_neg hs]
              exact Or.inr ⟨_, k + 1, rfl, by simp [h1], by omega, fun _ => by omega⟩
          · rw [if_neg h1]
            have hlen2 : 2 ≤ items.length := by omega
            by_cases hd : depth ≥ 6
            · rw [if_pos hd]
              rcases recover_singles_spec remote items (depth + 1) (k + 1)
                with ⟨e, he⟩ | ⟨parts, hparts, hpartslen⟩
              · rw [he]
                exact Or.inl ⟨e, rfl⟩
              · rw [hparts]
                exact Or.inr ⟨parts, k + 1 + items.length, rfl, hpartslen,
                  by omega, fun _ => by omega⟩
            · rw [if_neg hd]
              by_cases hm : items.length / 2 ≤ 0 ∨ items.length / 2 ≥ items.length
              · rw [dif_pos hm]
                exact Or.inl ⟨_, rfl⟩
              · rw [dif_neg hm]
                push_neg at hm
                have hmid1 : 1 ≤ items.length / 2 := hm.1
                have hmid2 : items.length / 2 < items.length := hm.2
                have htlen : (items.take (items.length / 2)).length = items.length / 2 := by
                  rw [List.length_take]
                  omega
                have hdlen : (items.drop (items.length / 2)).length
                    = items.length - items.length / 2 := List.length_drop _ _
                rcases ih (items.length / 2) (by omega) (items.take (items.length / 2))
                    (depth + 1) (k + 1) htlen
                  with ⟨e, he⟩ | ⟨left, kl, hleft, hleftlen, hleftb, hleftb2⟩
                · simp only [he]
                  exact Or.inl ⟨e, rfl⟩
                · simp only [hleft]
                  rcases ih (items.length - items.length / 2) (by omega)
                      (items.drop (items.length / 2)) (depth + 1) kl hdlen
                    with ⟨e, he⟩ | ⟨right, kr, hright, hrightlen, hrightb, hrightb2⟩
                  · simp only [he]
                    exact Or.inl ⟨e, rfl⟩
                  · simp only [hright]
                    have hlne : items.take (items.length / 2) ≠ [] := by
                      intro hc
                      rw [hc] at htlen
                      simp at htlen
                      omega
                    have hrne : items.drop (items.length / 2) ≠ [] := by
                      intro hc
                      rw [hc] at hdlen
                      simp at hdlen
                      omega
                    refine Or.inr ⟨left ++ right, kr, rfl, ?_, ?_, fun _ => ?_⟩
                    · rw [List.length_append, hleftlen, hrightlen, htlen, hdlen]
                      omega
                    · have hb1 := hleftb2 hlne
                      have hb2 := hrightb2 hrne
                      rw [htlen] at hb1
                      rw [hdlen] at hb2
                      omega
                    · have hb1 := hleftb2 hlne
                      have hb2 := hrightb2 hrne
                      rw [htlen] at hb1
                      rw [hdlen] at hb2
                      omega

/-- C2: for every remote-call behaviour (the oracle `remote`, with `none`
modelling the fallback chain raising), `recover_account_chunk_parts` is a
total function that either raises a fatal error or returns exactly as many
resolved segments as the chunk has items, making at most `3·n` oracle calls
in total; and a one-item chunk is resolved by exactly the one-item recovery
call `recover_one` (the form the depth-6 loop uses for each remaining
item). -/
theorem C2_recover_terminates (remote : ℕ → Option (List Char))
    (account_items : List ParaphraseItem) (depth k : ℕ) :
    ((∃ e, recover_account_chunk_parts remote account_items depth k = .error e)
      ∨ ∃ parts kend,
          recover_account_chunk_parts remote account_items depth k = .ok (parts, kend)
          ∧ parts.length = account_items.length
          ∧ kend ≤ k + 3 * account_items.length)
    ∧ ∀ (item : ParaphraseItem) (d2 k2 : ℕ),
        recover_account_chunk_parts remote [item] d2 k2 = recover_one remote item d2 k2 := by
  constructor
  · rcases recover_spec remote account_items.length account_items depth k rfl
      with ⟨e, he⟩ | ⟨parts, kend, hok, hlen, hb, _⟩
    · exact Or.inl ⟨e, he⟩
    · exact Or.inr ⟨parts, kend, hok, hlen, hb⟩
  · exact fun item d2 k2 => recover_one_eq remote item d2 k2

theorem recovery_account_order_known (preferred : String) (h : preferred ∈ ACCOUNT_KEYS) :
    recovery_account_order preferred
      = preferred :: ACCOUNT_KEYS.filter (fun k => k != preferred) := by
  fin_cases h <;> decide

theorem recovery_account_order_unknown (preferred : String) (h : preferred ∉ ACCOUNT_KEYS) :
    recovery_account_order preferred = ACCOUNT_KEYS := by
  unfold recovery_account_order
  rw [if_neg (by simpa using h)]
  decide

theorem recovery_account_order_spec (preferred : String) :
    (recovery_account_order preferred).Nodup
    ∧ (∀ k, k ∈ recovery_account_order preferred ↔ k ∈ ACCOUNT_KEYS)
    ∧ (preferred ∈ ACCOUNT_KEYS →
        (recovery_account_order preferred).head? = some preferred) := by
  by_cases h : preferred ∈ ACCOUNT_KEYS
  · rw [recovery_account_order_known preferred h]
    refine ⟨?_, ?_, fun _ => rfl⟩
    · refine List.nodup_cons.mpr ⟨?_, ?_⟩
      · intro hc
        have := (List.mem_filter.mp hc).2
        simp at this
      · exact (by decide : ACCOUNT_KEYS.Nodup).filter _
    · intro k
      constructor
      · intro hk
        rcases List.mem_cons.mp hk with rfl | hk2
        · exact h
        · exact (List.mem_filter.mp hk2).1
      · intro hk
        by_cases hkp : k = preferred
        · exact hkp ▸ List.mem_cons_self _ _
        · exact List.mem_cons_of_mem _ (List.mem_filter.mpr ⟨hk, by simp [hkp]⟩)
  · rw [recovery_account_order_unknown preferred h]
    exact ⟨by decide, fun k => Iff.rfl, fun hc => absurd hc h⟩

theorem fallback_loop_all_error (attempt : String → Except String (List Char))
    (request_label : String) (err : String → String) :
    ∀ (keys errors : List String),
    (∀ k ∈ keys, attempt k = .error (err k)) →
    fallback_loop attempt request_label keys errors
      = .error ("Recovery failed across all accounts for " ++ request_label ++ ": "
        ++ String.intercalate " | " (errors ++ keys.map (fun k => k ++ ": " ++ err k))) := by
  intro keys
  induction keys with
  | nil =>
    intro errors h
    simp [fallback_loop]
  | cons key rest ih =>
    intro errors h
    simp only [fallback_loop, h key (List.mem_cons_self _ _)]
    rw [ih (errors ++ [key ++ ": " ++ err key])
      (fun k hk => h k (List.mem_cons_of_mem _ hk))]
    simp [List.append_assoc]

theorem fallback_loop_first_ok (attempt : String → Except String (List Char))
    (request_label : String) :
    ∀ (pre : List String) (key : String) (post errors : List String) (out : List Char),
    (∀ j ∈ pre, ∃ e, attempt j = .error e) →
    attempt key = .ok out →
    fallback_loop attempt request_label (pre ++ key :: post) errors = .ok out := by
  intro pre
  induction pre with
  | nil =>
    intro key post errors out hpre hkey
    simp only [List.nil_append, fallback_loop, hkey]
  | cons j rest ih =>
    intro key post errors out hpre hkey
    obtain ⟨e, he⟩ := hpre j (List.mem_cons_self _ _)
    simp only [List.cons_append, fallback_loop, he]
    exact ih key post _ out (fun j2 hj2 => hpre j2 (List.mem_cons_of_mem _ hj2)) hkey

/-- C8: the recovery fallback tries the preferred account first (when known)
and then every other known account exactly once in the fixed `ACCOUNT_KEYS`
order; the first success is returned, and when every account fails the call
raises a single fatal error aggregating every per-account message in
attempt order. -/
theorem C8_fallback_order (attempt : String → Except String (List Char))
    (request_label preferred : String) :
    (recovery_account_order preferred).Nodup
    ∧ (∀ k, k ∈ recovery_account_order preferred ↔ k ∈ ACCOUNT_KEYS)
    ∧ (preferred ∈ ACCOUNT_KEYS →
        (recovery_account_order preferred).head? = some preferred)
    ∧ (∀ (pre : List String) (key : String) (post : List String) (out : List Char),
        recovery_account_order preferred = pre ++ key :: post →
        (∀ j ∈ pre, ∃ e, attempt j = .error e) →
        attempt key = .ok out →
        request_chunk_output_with_fallback attempt request_label preferred = .ok out)
    ∧ (∀ err : String → String,
        (∀ k ∈ recovery_account_order preferred, attempt k = .error (err k)) →
        request_chunk_output_with_fallback attempt request_label preferred
          = .error ("Recovery failed across all accounts for " ++ request_label ++ ": "
            ++ String.intercalate " | "
              ((recovery_account_order preferred).map (fun k => k ++ ": " ++ err k)))) := by
  obtain ⟨hnd, hmem, hhead⟩ := recovery_account_order_spec preferred
  refine ⟨hnd, hmem, hhead, ?_, ?_⟩
  · intro pre key post out hsplit hpre hkey
    unfold request_chunk_output_with_fallback
    rw [hsplit]
    exact fallback_loop_first_ok attempt request_label pre key post [] out hpre hkey
  · intro err herr
    unfold request_chunk_output_with_fallback
    rw [fallback_loop_all_error attempt request_label err _ [] herr]
    simp

theorem C8_fallback_order_witness :
    request_chunk_output_with_fallback
      (fun key => if key = "acc2" then .ok (['y'] : List Char) else .error "boom")
      "req" "acc1" = .ok ['y'] := by
  apply (C8_fallback_order
      (fun key => if key = "acc2" then .ok (['y'] : List Char) else .error "boom")
      "req" "acc1").2.2.2.1 ["acc1"] "acc2" ["acc3"] ['y'] (by decide)
  · intro j hj
    have hj1 : j = "acc1" := by simpa using hj
    exact ⟨"boom", by rw [hj1]; simp⟩
  · simp

end Paraphrase
